import Mathlib

/-!
# VLP2SS converter — formal model and verification

A shallow embedding, in Lean 4, of the content-transformation pipeline of the
VLP-to-ScreenSteps converter (`src/golang/main.go`): the structure flattener,
the HTML rewriter (entity decoding, span mapping, paragraph-style grouping,
YouTube embed conversion), and the content-block generation performed at
upload time.  Machine integers of the source are modelled as `Int`/`Nat`
(no overflow is exercised anywhere in the modelled code paths), strings as
Lean `String`, and the Go regular-expression passes as purpose-built scanners
implementing the leftmost-first matching semantics of the specific patterns
used by the source.  External effects (image upload, the HTTP client, the
randomised iteration order of Go maps, the wall clock) are explicit
parameters.
-/

namespace VLP2SS

/-! ## Source data model (VLP XML structures, from `main.go` lines 24–71) -/

/-- `Image` from main.go: one `<img>` reference of a localized content block. -/
structure Image where
  src : String
  filename : String
  width : String
  height : String
deriving DecidableEq, Repr

/-- `LocaleContent` from main.go (the `images` field is optional in XML). -/
structure LocaleContent where
  id : String
  title : String
  languageCode : String
  content : String
  images : Option (List Image)
deriving DecidableEq, Repr

/-- `ContentNode` from main.go: one node of the nested VLP tree.  `children`
is `none` when the `<children>` element is absent (Go `nil` pointer) and
`some l` when present with node list `l`. -/
inductive ContentNode where
  | mk : (id : String) → (title : String) → (orderIndex : Int) →
      (children : Option (List ContentNode)) →
      (localizations : Option LocaleContent) → ContentNode

def ContentNode.id : ContentNode → String
  | .mk i _ _ _ _ => i

def ContentNode.title : ContentNode → String
  | .mk _ t _ _ _ => t

def ContentNode.orderIndex : ContentNode → Int
  | .mk _ _ o _ _ => o

def ContentNode.children : ContentNode → Option (List ContentNode)
  | .mk _ _ _ c _ => c

def ContentNode.localizations : ContentNode → Option LocaleContent
  | .mk _ _ _ _ l => l

/-- `Manual` from main.go (only the fields the pipeline reads). -/
structure Manual where
  id : String
  name : String
  defaultLanguageCode : String
  contentNodes : List ContentNode

/-! ## Target data model (ScreenSteps JSON structures, lines 73–109) -/

/-- `SSStep` from main.go. -/
structure SSStep where
  id : String
  title : String
  order : Int
  content : String
  images : List Image
deriving DecidableEq, Repr

/-- `SSArticle` from main.go. -/
structure SSArticle where
  id : String
  title : String
  position : Nat
  vlpOrder : Int
  steps : List SSStep
deriving DecidableEq, Repr

/-- `SSChapter` from main.go. -/
structure SSChapter where
  id : String
  title : String
  order : Int
  description : String
  articles : List SSArticle
deriving DecidableEq, Repr

/-- `SSManualData` from main.go (timestamps are strings formatted from
`time.Now()`; the wall clock is an explicit parameter of the model). -/
structure SSManualData where
  id : String
  title : String
  language : String
  createdAt : String
  updatedAt : String
  chapters : List SSChapter
deriving DecidableEq, Repr

/-! ## Structure flattener (`flattenStructure`, lines 973–1085)

The flattener calls `c.cleanHTML` on node bodies; the HTML rewriter is
developed later in this file, so the flattener defs take the cleaning
function as an explicit parameter `clean` and the full pipeline instantiates
it with the real `cleanHTML`. -/

/-- `getNodeContent` from main.go (lines 1087–1092). -/
def getNodeContent (node : ContentNode) : String :=
  match node.localizations with
  | some loc => loc.content
  | none => ""

/-- `getNodeImages` from main.go (lines 1094–1099). -/
def getNodeImages (node : ContentNode) : List Image :=
  match node.localizations with
  | some loc =>
    match loc.images with
    | some imgs => imgs
    | none => []
  | none => []

/-- The Go test `node.Children != nil && len(node.Children.Nodes) > 0`. -/
def ContentNode.hasChildNodes (node : ContentNode) : Bool :=
  match node.children with
  | some (_ :: _) => true
  | _ => false

/-- Child node list (empty for both a `nil` pointer and an empty list). -/
def ContentNode.childNodes (node : ContentNode) : List ContentNode :=
  match node.children with
  | some l => l
  | none => []

/-- One step from a level-3 node (lines 1051–1057). -/
def stepOfNode (clean : String → String) (stepNode : ContentNode) : SSStep :=
  { id := stepNode.id
    title := stepNode.title
    order := stepNode.orderIndex
    content := clean (getNodeContent stepNode)
    images := getNodeImages stepNode }

/-- The synthetic step made from an article node that has no level-3
children (lines 1063–1071). -/
def synthStepOfArticle (clean : String → String) (articleNode : ContentNode) : SSStep :=
  { id := articleNode.id
    title := articleNode.title
    order := 0
    content := clean (getNodeContent articleNode)
    images := getNodeImages articleNode }

/-- Step list of one article (lines 1049–1074): one step per level-3 child
node if any exist, else exactly one synthetic step. -/
def stepsOfArticle (clean : String → String) (articleNode : ContentNode) : List SSStep :=
  if articleNode.hasChildNodes then
    articleNode.childNodes.map (stepOfNode clean)
  else
    [synthStepOfArticle clean articleNode]

/-- One article from a level-2 node (lines 1039–1046); `position` is the
running counter value, assigned sequentially and independent of the node's
own `orderIndex` (which is kept as `vlpOrder`). -/
def articleOfNode (clean : String → String) (position : Nat) (articleNode : ContentNode) :
    SSArticle :=
  { id := articleNode.id
    title := articleNode.title
    position := position
    vlpOrder := articleNode.orderIndex
    steps := stepsOfArticle clean articleNode }

/-- Article list of one chapter (lines 1030–1078): positions start at 1 and
increment once per level-2 node, in list order. -/
def articlesOfChapter (clean : String → String) (chapterNode : ContentNode) : List SSArticle :=
  match chapterNode.children with
  | none => []
  | some articleNodes =>
    articleNodes.enum.map (fun p => articleOfNode clean (p.1 + 1) p.2)

/-- One chapter from a top-level node (lines 1021–1027). -/
def chapterOfNode (clean : String → String) (chapterNode : ContentNode) : SSChapter :=
  { id := chapterNode.id
    title := chapterNode.title
    order := chapterNode.orderIndex
    description := clean (getNodeContent chapterNode)
    articles := articlesOfChapter clean chapterNode }

/-- The first top-level node is skipped when it has no children: it is the
manual's own title node, not a chapter (lines 1012–1016). -/
def keptChapterNodes (manual : Manual) : List ContentNode :=
  match manual.contentNodes with
  | [] => []
  | first :: rest =>
    if first.hasChildNodes then first :: rest else rest

/-- `flattenStructure` from main.go (lines 973–1085), stripped of the
logger/progress side effects (they do not influence the returned data). -/
def flattenStructure (clean : String → String) (manual : Manual) : List SSChapter :=
  (keptChapterNodes manual).map (chapterOfNode clean)

/-! ## Reassigning the source order field

The spec claims article positions are independent of the source's own
`orderIndex` values.  `setArticleOrders g` rewrites the `orderIndex` of every
level-2 (article) node by an arbitrary reassignment `g`; permutations of the
order field are a special case. -/

/-- Rewrite one node's `orderIndex` by `g`, leaving everything else alone. -/
def setNodeOrder (g : ContentNode → Int) (a : ContentNode) : ContentNode :=
  .mk a.id a.title (g a) a.children a.localizations

/-- Rewrite the `orderIndex` of each level-2 child of a top-level node. -/
def setArticleOrdersNode (g : ContentNode → Int) (n : ContentNode) : ContentNode :=
  .mk n.id n.title n.orderIndex (n.children.map (List.map (setNodeOrder g))) n.localizations

/-- Rewrite the `orderIndex` field of every article-level node of a manual. -/
def setArticleOrders (g : ContentNode → Int) (manual : Manual) : Manual :=
  { manual with contentNodes := manual.contentNodes.map (setArticleOrdersNode g) }

/-! ### Flattener lemmas -/

theorem setNodeOrder_children (g : ContentNode → Int) (a : ContentNode) :
    (setNodeOrder g a).children = a.children := rfl

theorem setArticleOrdersNode_hasChildNodes (g : ContentNode → Int) (n : ContentNode) :
    (setArticleOrdersNode g n).hasChildNodes = n.hasChildNodes := by
  cases n with
  | mk i t o c l =>
    cases c with
    | none => rfl
    | some arts => cases arts <;> rfl

theorem setArticleOrdersNode_childNodes_length (g : ContentNode → Int) (n : ContentNode) :
    (setArticleOrdersNode g n).childNodes.length = n.childNodes.length := by
  cases n with
  | mk i t o c l =>
    cases c with
    | none => rfl
    | some arts => simp [setArticleOrdersNode, ContentNode.childNodes, ContentNode.children]

theorem keptChapterNodes_setArticleOrders (g : ContentNode → Int) (manual : Manual) :
    keptChapterNodes (setArticleOrders g manual) =
      (keptChapterNodes manual).map (setArticleOrdersNode g) := by
  cases hm : manual.contentNodes with
  | nil => simp [keptChapterNodes, setArticleOrders, hm]
  | cons first rest =>
    simp only [keptChapterNodes, setArticleOrders, hm, List.map_cons]
    rw [setArticleOrdersNode_hasChildNodes]
    by_cases h : first.hasChildNodes = true
    · simp [h]
    · simp [h]

/-- Positions of a chapter's articles are `1, 2, …, k` where `k` is the
number of level-2 child nodes. -/
theorem articlesOfChapter_positions (clean : String → String) (n : ContentNode) :
    (articlesOfChapter clean n).map (fun a => a.position) =
      List.range' 1 n.childNodes.length := by
  cases hn : n.children with
  | none => simp [articlesOfChapter, ContentNode.childNodes, hn]
  | some arts =>
    simp only [articlesOfChapter, ContentNode.childNodes, hn, List.map_map]
    have h1 : ((fun a => a.position) ∘ fun p : Nat × ContentNode =>
        articleOfNode clean (p.1 + 1) p.2) = (fun p : Nat × ContentNode => p.1 + 1) := rfl
    rw [h1]
    have h2 : (fun p : Nat × ContentNode => p.1 + 1) =
        ((fun i => i + 1) ∘ (Prod.fst : Nat × ContentNode → Nat)) := rfl
    rw [h2, ← List.map_map, List.enum_map_fst, List.range'_eq_map_range]
    simp [Nat.add_comm]

/-- Chapter-wise positions of the full flattener output. -/
theorem flattenStructure_positions (clean : String → String) (manual : Manual) :
    (flattenStructure clean manual).map (fun ch => ch.articles.map (fun a => a.position)) =
      (keptChapterNodes manual).map (fun n => List.range' 1 n.childNodes.length) := by
  simp only [flattenStructure, List.map_map]
  apply List.map_congr_left
  intro n _
  exact articlesOfChapter_positions clean n

theorem stepsOfArticle_length_pos (clean : String → String) (a : ContentNode) :
    (stepsOfArticle clean a).length ≥ 1 := by
  by_cases h : a.hasChildNodes = true
  · simp only [stepsOfArticle, h, if_true]
    cases ha : a.children with
    | none => simp [ContentNode.hasChildNodes, ha] at h
    | some arts =>
      cases arts with
      | nil => simp [ContentNode.hasChildNodes, ha] at h
      | cons x xs => simp [ContentNode.childNodes, ha]
  · simp [stepsOfArticle, h]

/-! ### Claim C7 -/

/-- C7: for every source manual, every Article produced by the flattener has
at least one Step; an article node with no child step nodes produces exactly
one synthetic Step built from the article's own content, and an article node
with child step nodes produces exactly one Step per child node. -/
theorem claimC7_every_article_has_a_step (clean : String → String) (manual : Manual) :
    (∀ ch ∈ flattenStructure clean manual, ∀ a ∈ ch.articles, a.steps ≠ []) ∧
    (∀ node : ContentNode, node.hasChildNodes = false →
      stepsOfArticle clean node = [synthStepOfArticle clean node]) ∧
    (∀ node : ContentNode, node.hasChildNodes = true →
      (stepsOfArticle clean node).length = node.childNodes.length) := by
  refine ⟨?_, ?_, ?_⟩
  · intro ch hch a ha
    simp only [flattenStructure, List.mem_map] at hch
    obtain ⟨n, _, rfl⟩ := hch
    simp only [chapterOfNode, articlesOfChapter] at ha
    cases hn : n.children with
    | none => simp [hn] at ha
    | some arts =>
      rw [hn] at ha
      simp only [List.mem_map] at ha
      obtain ⟨p, _, rfl⟩ := ha
      have := stepsOfArticle_length_pos clean p.2
      simp only [articleOfNode, ne_eq]
      intro hcontra
      rw [hcontra] at this
      simp at this
  · intro node h
    simp [stepsOfArticle, h]
  · intro node h
    simp [stepsOfArticle, h]

/-- C7 witness: a concrete manual whose single chapter has one article
without child steps; the flattened article's step list is non-empty. -/
theorem claimC7_witness :
    (articleOfNode id 1 (ContentNode.mk "a1" "Article One" 7 none none)).steps ≠ [] :=
  (claimC7_every_article_has_a_step id
      { id := "m1", name := "Manual", defaultLanguageCode := "en",
        contentNodes := [ContentNode.mk "c1" "Chapter One" 3
          (some [ContentNode.mk "a1" "Article One" 7 none none]) none] }).1
    (chapterOfNode id (ContentNode.mk "c1" "Chapter One" 3
      (some [ContentNode.mk "a1" "Article One" 7 none none]) none))
    (by simp [flattenStructure, keptChapterNodes, ContentNode.hasChildNodes,
      ContentNode.children])
    (articleOfNode id 1 (ContentNode.mk "a1" "Article One" 7 none none))
    (by simp [chapterOfNode, articlesOfChapter, ContentNode.children, List.enum])

/-! ### Claim C8 -/

/-- C8: within each chapter, article positions are `1, 2, …` contiguous; the
positions are unchanged under any reassignment (in particular any
permutation) of the source `orderIndex` field of article nodes, which is
preserved separately as the diagnostic `vlp_order` value. -/
theorem claimC8_positions_sequential_and_order_independent
    (clean : String → String) (manual : Manual) (g : ContentNode → Int)
    (chapterNode : ContentNode) :
    (flattenStructure clean manual).map (fun ch => ch.articles.map (fun a => a.position)) =
      (flattenStructure clean manual).map (fun ch => List.range' 1 ch.articles.length) ∧
    (flattenStructure clean (setArticleOrders g manual)).map
        (fun ch => ch.articles.map (fun a => a.position)) =
      (flattenStructure clean manual).map (fun ch => ch.articles.map (fun a => a.position)) ∧
    (articlesOfChapter clean chapterNode).map (fun a => a.vlpOrder) =
      chapterNode.childNodes.map (fun n => n.orderIndex) := by
  refine ⟨?_, ?_, ?_⟩
  · rw [flattenStructure_positions]
    simp only [flattenStructure, List.map_map]
    apply List.map_congr_left
    intro n _
    have : (chapterOfNode clean n).articles.length = n.childNodes.length := by
      have := articlesOfChapter_positions clean n
      have hlen := congrArg List.length this
      simpa [chapterOfNode] using hlen
    simp only [chapterOfNode] at this
    simp [Function.comp, chapterOfNode, this]
  · rw [flattenStructure_positions, flattenStructure_positions,
      keptChapterNodes_setArticleOrders, List.map_map]
    apply List.map_congr_left
    intro n _
    simp [Function.comp, setArticleOrdersNode_childNodes_length]
  · cases hn : chapterNode.children with
    | none => simp [articlesOfChapter, ContentNode.childNodes, hn]
    | some arts =>
      simp only [articlesOfChapter, ContentNode.childNodes, hn, List.map_map]
      have h1 : ((fun a => a.vlpOrder) ∘ fun p : Nat × ContentNode =>
          articleOfNode clean (p.1 + 1) p.2) =
          ((fun n : ContentNode => n.orderIndex) ∘ (Prod.snd : Nat × ContentNode → ContentNode)) := rfl
      rw [h1, ← List.map_map, List.enum_map_snd]

/-! ### Claim C10 -/

/-- C10: when a source article node has no child step nodes, the single
synthesized Step reuses the article node's own id and title, has Order 0
(not the article's orderIndex), Content equal to the cleaned article
content, and Images equal to the article node's image list. -/
theorem claimC10_synthetic_step_fields (clean : String → String) (position : Nat)
    (articleNode : ContentNode) (h : articleNode.hasChildNodes = false) :
    (articleOfNode clean position articleNode).steps =
      [{ id := articleNode.id
         title := articleNode.title
         order := 0
         content := clean (getNodeContent articleNode)
         images := getNodeImages articleNode }] := by
  simp [articleOfNode, stepsOfArticle, h, synthStepOfArticle]

/-- C10 witness: the synthetic step of a concrete child-less article node
(orderIndex 7) carries the node's id/title, Order 0 and its image list. -/
theorem claimC10_witness :
    (ContentNode.mk "a9" "Install" 7 none
        (some { id := "l9", title := "Install", languageCode := "en",
                content := "<p>body</p>",
                images := some [{ src := "./images/s.png", filename := "s.png",
                                  width := "5", height := "6" }] })).hasChildNodes = false ∧
    (articleOfNode id 4 (ContentNode.mk "a9" "Install" 7 none
        (some { id := "l9", title := "Install", languageCode := "en",
                content := "<p>body</p>",
                images := some [{ src := "./images/s.png", filename := "s.png",
                                  width := "5", height := "6" }] }))).steps =
      [{ id := "a9", title := "Install", order := 0, content := "<p>body</p>",
         images := [{ src := "./images/s.png", filename := "s.png",
                      width := "5", height := "6" }] }] :=
  ⟨rfl, claimC10_synthetic_step_fields id 4 _ rfl⟩

/-! ## HTML entity decoding (Go `html.UnescapeString` / `html.EscapeString`)

`cleanHTML` (main.go lines 1101–1119) calls the Go standard library's
`html.UnescapeString` twice.  The model below implements Go's unescaping
algorithm — longest-entity-name scan with optional trailing semicolon,
fallback search over shorter semicolon-less legacy names, and decimal/hex
numeric character references with the HTML5 windows-1252 remapping — over
the named entities `amp`, `lt`, `gt`, `quot`, `apos` (the ones the VLP
export and this development exercise); Go's full table has further names
but behaves identically on strings whose ampersand runs use only these. -/

/-- Entity-name characters (Go `html` package treats ASCII alphanumerics as
name characters). -/
def isAlnumChar (c : Char) : Bool :=
  ('a' ≤ c && c ≤ 'z') || ('A' ≤ c && c ≤ 'Z') || ('0' ≤ c && c ≤ '9')

def isDecDigit (c : Char) : Bool := '0' ≤ c && c ≤ '9'

def isHexDigit (c : Char) : Bool :=
  isDecDigit c || ('a' ≤ c && c ≤ 'f') || ('A' ≤ c && c ≤ 'F')

def hexVal (c : Char) : Nat :=
  if isDecDigit c then c.toNat - '0'.toNat
  else if 'a' ≤ c && c ≤ 'f' then c.toNat - 'a'.toNat + 10
  else c.toNat - 'A'.toNat + 10

def decVal (c : Char) : Nat := c.toNat - '0'.toNat

/-- Named entities with their terminating semicolon (keys of Go's `entity`
map restricted to the names this code base exercises). -/
def namedEntitiesSemi : List (List Char × Char) :=
  [("amp;".data, '&'), ("lt;".data, '<'), ("gt;".data, '>'),
   ("quot;".data, '"'), ("apos;".data, '\'')]

/-- Semicolon-less legacy entity names (HTML5 allows e.g. `&amp` without a
terminating semicolon; `apos` has no legacy form). -/
def namedEntitiesBare : List (List Char × Char) :=
  [("amp".data, '&'), ("lt".data, '<'), ("gt".data, '>'), ("quot".data, '"')]

/-- Go's `longestEntityWithoutSemicolon`. -/
def longestBareLen : Nat := 6

/-- Longest `j` with `2 ≤ j ≤ maxLen` such that the first `j` characters of
`run` are a semicolon-less entity name (Go's shrinking prefix search). -/
def lookupBareLongest (run : List Char) (maxLen : Nat) : Option (Char × Nat) :=
  (List.range (min maxLen run.length + 1)).reverse.findSome? fun j =>
    if j < 2 then none
    else
      match namedEntitiesBare.lookup (run.take j) with
      | some c => some (c, j)
      | none => none

/-- Decode a named entity directly after an ampersand; returns the decoded
character and the number of characters consumed (not counting the `&`). -/
def tryNamedEntity (s : List Char) : Option (Char × Nat) :=
  let run := s.takeWhile isAlnumChar
  if run.isEmpty then none
  else if (s.drop run.length).head? = some ';' then
    match namedEntitiesSemi.lookup (run ++ [';']) with
    | some c => some (c, run.length + 1)
    | none => lookupBareLongest run longestBareLen
  else
    match namedEntitiesBare.lookup run with
    | some c => some (c, run.length)
    | none => lookupBareLongest run (min (run.length - 1) longestBareLen)

/-- HTML5 windows-1252 remapping of numeric references 0x80–0x9F (Go's
`replacementTable`). -/
def win1252Char (v : Nat) : Char :=
  match v with
  | 0x80 => '€' | 0x81 => '\u0081' | 0x82 => '‚' | 0x83 => 'ƒ'
  | 0x84 => '„' | 0x85 => '…' | 0x86 => '†' | 0x87 => '‡'
  | 0x88 => 'ˆ' | 0x89 => '‰' | 0x8A => 'Š' | 0x8B => '‹'
  | 0x8C => 'Œ' | 0x8D => '\u008D' | 0x8E => 'Ž' | 0x8F => '\u008F'
  | 0x90 => '\u0090' | 0x91 => '‘' | 0x92 => '’' | 0x93 => '“'
  | 0x94 => '”' | 0x95 => '•' | 0x96 => '–' | 0x97 => '—'
  | 0x98 => '˜' | 0x99 => '™' | 0x9A => 'š' | 0x9B => '›'
  | 0x9C => 'œ' | 0x9D => '\u009D' | 0x9E => 'ž' | 0x9F => 'Ÿ'
  | _ => '�'

/-- Numeric reference accumulation: Go accumulates into a 32-bit rune, so
the value is taken modulo 2^32 and interpreted as a signed int32. -/
def numericAccum (base : Nat) (ds : List Nat) : Nat :=
  ds.foldl (fun acc d => (acc * base + d) % 4294967296) 0

/-- Character denoted by a numeric reference value (Go's range checks:
non-positive or beyond U+10FFFF become U+FFFD, 0x80–0x9F are remapped). -/
def numericRefChar (v : Nat) : Char :=
  if v = 0 || v ≥ 2147483648 || v > 0x10FFFF then '�'
  else if 0xD800 ≤ v && v ≤ 0xDFFF then '�'
  else if 0x80 ≤ v && v ≤ 0x9F then win1252Char v
  else Char.ofNat v

/-- Decode a numeric character reference directly after an ampersand. -/
def tryNumericEntity (s : List Char) : Option (Char × Nat) :=
  match s with
  | '#' :: rest =>
    match rest with
    | [] => none
    | c :: rest2 =>
      if c = 'x' || c = 'X' then
        let ds := rest2.takeWhile isHexDigit
        if ds.isEmpty then none
        else
          let after := rest2.drop ds.length
          let consumed := 2 + ds.length + (if after.head? = some ';' then 1 else 0)
          some (numericRefChar (numericAccum 16 (ds.map hexVal)), consumed)
      else
        let ds := rest.takeWhile isDecDigit
        if ds.isEmpty then none
        else
          let after := rest.drop ds.length
          let consumed := 1 + ds.length + (if after.head? = some ';' then 1 else 0)
          some (numericRefChar (numericAccum 10 (ds.map decVal)), consumed)
  | _ => none

/-- Fuel-indexed core of `html.UnescapeString` (fuel is the input length;
every step consumes at least one character, so the fuel never runs out). -/
def unescapeAux : Nat → List Char → List Char
  | 0, s => s
  | _ + 1, [] => []
  | fuel + 1, c :: rest =>
    if c = '&' then
      match tryNumericEntity rest with
      | some (cc, k) => cc :: unescapeAux fuel (rest.drop k)
      | none =>
        match tryNamedEntity rest with
        | some (cc, k) => cc :: unescapeAux fuel (rest.drop k)
        | none => '&' :: unescapeAux fuel rest
    else c :: unescapeAux fuel rest

/-- Model of Go `html.UnescapeString` (see section comment for the entity
subset modelled). -/
def unescapeString (s : String) : String := ⟨unescapeAux s.data.length s.data⟩

/-- Model of Go `html.EscapeString`: escapes `&`, `'`, `<`, `>`, `"`. -/
def escapeChar (c : Char) : List Char :=
  if c = '&' then "&amp;".data
  else if c = '\'' then "&#39;".data
  else if c = '<' then "&lt;".data
  else if c = '>' then "&gt;".data
  else if c = '"' then "&#34;".data
  else [c]

/-- Model of Go `html.EscapeString`. -/
def escapeString (s : String) : String := ⟨(s.data.map escapeChar).flatten⟩

/-- Unescaping a string with no ampersand is the identity. -/
theorem unescapeAux_no_amp (fuel : Nat) (s : List Char) (h : '&' ∉ s) :
    unescapeAux fuel s = s := by
  induction fuel generalizing s with
  | zero => rfl
  | succ n ih =>
    cases s with
    | nil => rfl
    | cons c rest =>
      have hc : ¬ (c = '&') := fun hh => h (by rw [hh]; exact List.mem_cons_self _ _)
      have hrest : '&' ∉ rest := fun hh => h (List.mem_cons_of_mem _ hh)
      simp [unescapeAux, hc, ih rest hrest]

/-- A token is an entity when it starts with `&`, ends with `;`, and decodes
to a single character. -/
def isEntityToken (t : String) : Bool :=
  match t.data with
  | '&' :: _ => t.data.getLast? = some ';' && (unescapeString t).data.length = 1
  | _ => false

/-! ### Claim C6 -/

/-- C6 counterexample: the string `&amp;amp;&amp;#103;&amp;#116;&amp;#59;`
is a concatenation of four double-encoded HTML entities (each is
`escapeString` of an entity token: the entities for `&`, `g`, `t`, `;`),
yet decoding it a third time does not equal the second pass: two passes
give `&gt;` — the decoded characters of adjacent entities concatenate into
a fresh entity — and the third pass decodes further to `>`.  The claim as
stated is therefore false. -/
theorem claimC6_counterexample :
    (["&amp;", "&#103;", "&#116;", "&#59;"].all isEntityToken) = true ∧
    String.join (["&amp;", "&#103;", "&#116;", "&#59;"].map escapeString) =
      "&amp;amp;&amp;#103;&amp;#116;&amp;#59;" ∧
    unescapeString (unescapeString "&amp;amp;&amp;#103;&amp;#116;&amp;#59;") = "&gt;" ∧
    unescapeString (unescapeString (unescapeString "&amp;amp;&amp;#103;&amp;#116;&amp;#59;")) ≠
      unescapeString (unescapeString "&amp;amp;&amp;#103;&amp;#116;&amp;#59;") := by
  refine ⟨by decide, by decide, by decide, by decide⟩

/-- C6 (amended): entity decoding stabilizes after two passes whenever the
twice-decoded string contains no ampersand — in particular whenever the
decoded entities do not concatenate into a fresh entity; a third application
of the decoder then returns the twice-decoded string exactly. -/
theorem claimC6_third_decode_is_second (s : String)
    (h : '&' ∉ (unescapeString (unescapeString s)).data) :
    unescapeString (unescapeString (unescapeString s)) =
      unescapeString (unescapeString s) := by
  cases ht : unescapeString (unescapeString s) with
  | mk data =>
    rw [ht] at h
    simp only [unescapeString]
    rw [unescapeAux_no_amp _ _ h]

/-- C6 witness: the spec's own example `&amp;gt;` decodes to `&gt;` then to
`>`, at which point the third pass is the identity. -/
theorem claimC6_witness :
    ('&' ∉ (unescapeString (unescapeString "&amp;gt;")).data) ∧
    unescapeString (unescapeString (unescapeString "&amp;gt;")) =
      unescapeString (unescapeString "&amp;gt;") :=
  ⟨by decide, claimC6_third_decode_is_second "&amp;gt;" (by decide)⟩

/-! ## String scanning utilities

The Go source applies a handful of fixed regular expressions.  Each is
modelled by a purpose-built scanner implementing Go's (Perl-style,
leftmost-first) matching semantics for that specific pattern: lazy `.*?`
takes the first occurrence of the following literal, greedy `[^x]*`/`[^x]+`
followed by a literal tries the rightmost feasible occurrence first, and a
pattern without `(?s)` does not let `.` cross a newline. -/

/-- First index at which `pat` occurs in the list (Go `strings.Index`). -/
def findSubIdx (pat : List Char) : List Char → Option Nat
  | [] => if pat.isEmpty then some 0 else none
  | s@(_ :: rest) =>
    if pat.isPrefixOf s then some 0 else (findSubIdx pat rest).map (· + 1)

/-- First index at which `pat` occurs, provided no newline appears before
it (the gap is matched by a `.*?` whose `.` does not cross newlines). -/
def findSubIdxNoNL (pat : List Char) : List Char → Option Nat
  | [] => if pat.isEmpty then some 0 else none
  | s@(c :: rest) =>
    if pat.isPrefixOf s then some 0
    else if c = '\n' then none
    else (findSubIdxNoNL pat rest).map (· + 1)

/-- Whether `pat` occurs anywhere in `s` (Go `strings.Contains`). -/
def containsSub (pat s : List Char) : Bool := (findSubIdx pat s).isSome

/-- Ascending offsets `p` such that every character before `p` satisfies
`allowed` and `pat` is a prefix at `p`: the feasible split points of a
`[allowed]*LITERAL` pattern piece.  The greedy star tries them in reverse
(rightmost first). -/
def starLitCandidates (allowed : Char → Bool) (pat : List Char) : List Char → List Nat
  | [] => if pat.isEmpty then [0] else []
  | s@(c :: rest) =>
    let here := if pat.isPrefixOf s then [0] else []
    if allowed c then here ++ (starLitCandidates allowed pat rest).map (· + 1)
    else here

/-- `ReplaceAllString` with pattern `<[^>]+>` and empty replacement: strips
every complete tag (used to test a fragment for visible text). -/
def stripTagsAux : Nat → List Char → List Char
  | 0, s => s
  | _ + 1, [] => []
  | fuel + 1, c :: rest =>
    if c = '<' then
      let run := rest.takeWhile (· ≠ '>')
      if run.isEmpty then '<' :: stripTagsAux fuel rest
      else
        match rest.drop run.length with
        | '>' :: rest2 => stripTagsAux fuel rest2
        | _ => '<' :: stripTagsAux fuel rest
    else c :: stripTagsAux fuel rest

def stripTagsList (s : List Char) : List Char := stripTagsAux s.length s

/-- Go `unicode.IsSpace` restricted to the code points that occur in HTML
exported by VLP (ASCII whitespace plus NEL and NBSP). -/
def goIsSpace (c : Char) : Bool :=
  c = ' ' || c = '\t' || c = '\n' || c = '\x0B' || c = '\x0C' || c = '\r' ||
  c = '\u0085' || c = ' '

/-- RE2 `\s` character class: `[\t\n\f\r ]`. -/
def isReSpace (c : Char) : Bool :=
  c = '\t' || c = '\n' || c = '\x0C' || c = '\r' || c = ' '

/-- Go `strings.TrimSpace`. -/
def trimSpaceList (s : List Char) : List Char :=
  ((s.dropWhile goIsSpace).reverse.dropWhile goIsSpace).reverse

/-- Go `strings.Fields`: split around runs of whitespace. -/
def fieldsAux : Nat → List Char → List (List Char)
  | 0, _ => []
  | _ + 1, [] => []
  | fuel + 1, s =>
    let s1 := s.dropWhile goIsSpace
    match s1 with
    | [] => []
    | _ =>
      let w := s1.takeWhile (fun c => !goIsSpace c)
      w :: fieldsAux fuel (s1.drop w.length)

def fieldsList (s : List Char) : List (List Char) := fieldsAux s.length s

/-- Go `filepath.Base` with `/` as separator. -/
def goBase (path : String) : String :=
  if path = "" then "."
  else
    let cs := (path.data.reverse.dropWhile (· = '/')).reverse
    if cs.isEmpty then "/"
    else ⟨(cs.reverse.takeWhile (· ≠ '/')).reverse⟩

/-- `slugify` from main.go (lines 1922–1930): lower-case, spaces to
hyphens, all other characters outside `[a-z0-9-]` removed. -/
def slugify (text : String) : String :=
  let lowered := text.data.map Char.toLower
  let hyphened := lowered.map fun c => if c = ' ' then '-' else c
  ⟨hyphened.filter fun c => ('a' ≤ c && c ≤ 'z') || ('0' ≤ c && c ≤ '9') || c = '-'⟩

/-! ## Content-block generation at upload time
(`UploadToScreenSteps`, main.go lines 1580–1733)

For each article the uploader re-parses every step's finished HTML with the
alternation
`(?s)(<div class="html-embed">.*?</div>|<div class="screensteps-styled-block"[^>]*>.*?</div>|<img[^>]+src="[^"]+"[^>]*>)`
and emits a content-block list.  Image upload and the on-disk image
directory are external; they are modelled by an oracle mapping each image
path to its outcome.  Go's random `generateUUID` is modelled by a counter
supplying fresh identifiers (only the identity of identifiers matters to
the modelled claims). -/

def embedLit : List Char := "<div class=\"html-embed\">".data

def styledLit : List Char := "<div class=\"screensteps-styled-block\"".data

def closeDivLit : List Char := "</div>".data

def imgLit : List Char := "<img".data

def srcEqLit : List Char := "src=\"".data

def dataStyleLit : List Char := "data-style=\"".data

/-- Match `<div class="html-embed">.*?</div>` (inside a `(?s)` group) at the
head of `s`; returns the match length. -/
def matchEmbedAt (s : List Char) : Option Nat :=
  if embedLit.isPrefixOf s then
    (findSubIdx closeDivLit (s.drop embedLit.length)).map fun i =>
      embedLit.length + i + closeDivLit.length
  else none

/-- Match `<div class="screensteps-styled-block"[^>]*>.*?</div>` (inside a
`(?s)` group) at the head of `s`. -/
def matchStyledAt (s : List Char) : Option Nat :=
  if styledLit.isPrefixOf s then
    match findSubIdx ['>'] (s.drop styledLit.length) with
    | none => none
    | some i =>
      (findSubIdx closeDivLit (s.drop (styledLit.length + i + 1))).map fun j =>
        styledLit.length + i + 1 + j + closeDivLit.length
  else none

/-- Match `<img[^>]+src="[^"]+"[^>]*>` at the head of `s`; the greedy
`[^>]+` tries the rightmost `src="` occurrence first. -/
def matchImgAt (s : List Char) : Option Nat :=
  if imgLit.isPrefixOf s then
    let rest := s.drop imgLit.length
    ((starLitCandidates (· ≠ '>') srcEqLit rest).filter (1 ≤ ·)).reverse.findSome? fun p =>
      let afterSrc := rest.drop (p + srcEqLit.length)
      match findSubIdx ['"'] afterSrc with
      | none => none
      | some q =>
        if q = 0 then none
        else
          (findSubIdx ['>'] (afterSrc.drop (q + 1))).map fun r =>
            imgLit.length + p + srcEqLit.length + q + 1 + r + 1
  else none

/-- One alternative of the uploader's combined block pattern. -/
inductive BlockKind where
  | embed
  | styled
  | img
deriving DecidableEq, Repr

/-- The three-way alternation, tried in source order at one position. -/
def matchBlockAt (s : List Char) : Option (Nat × BlockKind) :=
  match matchEmbedAt s with
  | some n => some (n, .embed)
  | none =>
    match matchStyledAt s with
    | some n => some (n, .styled)
    | none => (matchImgAt s).map (fun n => (n, .img))

/-- One scanned segment: the plain gap before a matched special block, the
block's full HTML, and which alternative matched. -/
structure ScannedPiece where
  gap : String
  blockHTML : String
  kind : BlockKind
deriving DecidableEq, Repr

/-- Decomposition of a step's HTML produced by
`blockRegex.FindAllStringSubmatchIndex` plus the `lastIndex` bookkeeping of
the uploader loop. -/
structure ScanResult where
  pieces : List ScannedPiece
  trailing : String
deriving DecidableEq, Repr

def scanContentAux : Nat → List Char → List Char → List ScannedPiece × List Char
  | 0, gapAcc, s => ([], gapAcc.reverse ++ s)
  | _ + 1, gapAcc, [] => ([], gapAcc.reverse)
  | fuel + 1, gapAcc, s@(c :: rest) =>
    match matchBlockAt s with
    | some (n, k) =>
      let (ps, tr) := scanContentAux fuel [] (s.drop n)
      ({ gap := ⟨gapAcc.reverse⟩, blockHTML := ⟨s.take n⟩, kind := k } :: ps, tr)
    | none => scanContentAux fuel (c :: gapAcc) rest

/-- Scan a step's content into gaps, matched blocks and trailing text. -/
def scanContent (content : String) : ScanResult :=
  let (ps, tr) := scanContentAux (content.data.length + 1) [] content.data
  { pieces := ps, trailing := ⟨tr⟩ }

/-- Leftmost match of `imgTagRegex` = `<img[^>]+src="([^"]+)"[^>]*>` with
its `src` capture. -/
def imgCaptureAt (s : List Char) : Option (List Char) :=
  if imgLit.isPrefixOf s then
    let rest := s.drop imgLit.length
    ((starLitCandidates (· ≠ '>') srcEqLit rest).filter (1 ≤ ·)).reverse.findSome? fun p =>
      let afterSrc := rest.drop (p + srcEqLit.length)
      match findSubIdx ['"'] afterSrc with
      | none => none
      | some q =>
        if q = 0 then none
        else
          (findSubIdx ['>'] (afterSrc.drop (q + 1))).map fun _ => afterSrc.take q
  else none

def imgTagCapture : List Char → Option (List Char)
  | [] => none
  | s@(_ :: rest) =>
    match imgCaptureAt s with
    | some cap => some cap
    | none => imgTagCapture rest

/-- Leftmost match of `styledBlockRegex` =
`<div class="screensteps-styled-block"[^>]*data-style="([^"]+)"[^>]*>(.*?)</div>`
(no `(?s)`: the body capture may not cross a newline) with its two
captures. -/
def styledCaptureAt (s : List Char) : Option (List Char × List Char) :=
  if styledLit.isPrefixOf s then
    let rest := s.drop styledLit.length
    (starLitCandidates (· ≠ '>') dataStyleLit rest).reverse.findSome? fun p =>
      let afterDS := rest.drop (p + dataStyleLit.length)
      match findSubIdx ['"'] afterDS with
      | none => none
      | some q =>
        if q = 0 then none
        else
          match findSubIdx ['>'] (afterDS.drop (q + 1)) with
          | none => none
          | some r =>
            let rest3 := afterDS.drop (q + 1 + r + 1)
            (findSubIdxNoNL closeDivLit rest3).map fun j =>
              (afterDS.take q, rest3.take j)
  else none

def styledCapture : List Char → Option (List Char × List Char)
  | [] => none
  | s@(_ :: rest) =>
    match styledCaptureAt s with
    | some caps => some caps
    | none => styledCapture rest

/-- Outcome of resolving and uploading one image file, the external
boundary of the uploader: the file may be absent on disk (`os.Stat` fails),
the upload call may fail, the API may answer without a usable `file`
object, or the upload succeeds with asset data. -/
inductive UploadOutcome where
  | missing
  | uploadFailed
  | noFileData
  | uploaded (assetId width height : Nat) (url : String)
deriving DecidableEq, Repr

/-- Content-block type discriminator (`StepContent` / `TextContent` /
`ImageContentBlock`). -/
inductive CBKind where
  | step
  | text
  | image
deriving DecidableEq, Repr

/-- One generated content block (the union of the fields the uploader
emits; unused fields keep their zero value, as Go's `omitempty` drops
them). -/
structure CB where
  uuid : Nat
  kind : CBKind
  title : String := ""
  body : String := ""
  depth : Nat := 0
  sortOrder : Nat := 0
  childIds : List Nat := []
  style : Option String := none
  assetFileName : String := ""
  imageAssetId : Nat := 0
  width : Nat := 0
  height : Nat := 0
  url : String := ""
  anchorName : String := ""
deriving DecidableEq, Repr

/-- `SkippedImage` from main.go (lines 1456–1461). -/
structure SkippedImage where
  imagePath : String
  chapterTitle : String
  articleTitle : String
  stepTitle : String
deriving DecidableEq, Repr

/-- Image-upload oracle: outcome per image path. -/
def Oracle : Type := String → UploadOutcome

/-- Accumulator for one step's body blocks (the Go loop mutates
`contentBlocks`, `stepBlock["content_block_ids"]`, `skippedImages`,
`sortOrder` as it scans). -/
structure StepAcc where
  body : List CB
  children : List Nat
  skipped : List SkippedImage
  sortOrder : Nat
  nextUuid : Nat
deriving Repr

/-- Shared emission shape of the four emitting branches of the uploader
loop: append one body block carrying the current sort order and a fresh
identifier, record the identifier in the step header's child list, and
advance both counters. -/
def emitBodyBlock (mk : Nat → Nat → CB) (acc : StepAcc) : StepAcc :=
  { acc with
    body := acc.body ++ [mk acc.sortOrder acc.nextUuid]
    children := acc.children ++ [acc.nextUuid]
    sortOrder := acc.sortOrder + 1
    nextUuid := acc.nextUuid + 1 }

/-- Emit a `TextContent` block for a gap whose tag-stripped text is
non-blank (lines 1615–1632 and 1707–1719 of main.go). -/
def processGap (gap : String) (acc : StepAcc) : StepAcc :=
  if (trimSpaceList (stripTagsList gap.data)).isEmpty then acc
  else
    emitBodyBlock (fun s u => { uuid := u, kind := .text, body := gap,
                                depth := 1, sortOrder := s, style := none }) acc

/-- The image path the uploader derives from an `img` tag's `src` capture:
entity-unescape, strip a query string, take the basename, join with the
article's image directory. -/
def imagePathOfSrc (imagesDir : String) (srcRaw : List Char) : String :=
  let src := unescapeAux srcRaw.length srcRaw
  let srcPath := src.takeWhile (· ≠ '?')
  imagesDir ++ "/" ++ goBase ⟨srcPath⟩

/-- Process one matched special block (lines 1634–1703 of main.go). -/
def processBlock (oracle : Oracle) (imagesDir chapterTitle articleTitle stepTitle : String)
    (blockHTML : String) (kind : BlockKind) (acc : StepAcc) : StepAcc :=
  match kind with
  | .img =>
    match imgTagCapture blockHTML.data with
    | none => acc
    | some srcRaw =>
      let imagePath := imagePathOfSrc imagesDir srcRaw
      let filename := goBase ⟨(unescapeAux srcRaw.length srcRaw).takeWhile (· ≠ '?')⟩
      match oracle imagePath with
      | .missing =>
        { acc with skipped := acc.skipped ++
            [{ imagePath := imagePath, chapterTitle := chapterTitle,
               articleTitle := articleTitle, stepTitle := stepTitle }] }
      | .uploadFailed =>
        { acc with skipped := acc.skipped ++
            [{ imagePath := imagePath, chapterTitle := chapterTitle,
               articleTitle := articleTitle, stepTitle := stepTitle }] }
      | .noFileData => acc
      | .uploaded assetId w h url =>
        emitBodyBlock (fun s u => { uuid := u, kind := .image,
                                    assetFileName := filename, imageAssetId := assetId,
                                    width := w, height := h, depth := 1,
                                    sortOrder := s, url := url }) acc
  | .embed =>
    emitBodyBlock (fun s u => { uuid := u, kind := .text, body := blockHTML,
                                depth := 1, sortOrder := s,
                                style := some "html-embed" }) acc
  | .styled =>
    match styledCapture blockHTML.data with
    | none => acc
    | some (style, inner) =>
      emitBodyBlock (fun s u => { uuid := u, kind := .text, body := ⟨inner⟩,
                                  depth := 1, sortOrder := s,
                                  style := some ⟨style⟩ }) acc

def processPiece (oracle : Oracle) (imagesDir chapterTitle articleTitle stepTitle : String)
    (acc : StepAcc) (p : ScannedPiece) : StepAcc :=
  processBlock oracle imagesDir chapterTitle articleTitle stepTitle p.blockHTML p.kind
    (processGap p.gap acc)

/-- Accumulator state at the start of one step's scan: the header consumes
the current sort order and one fresh identifier. -/
def stepAccInit (sort0 uuid0 : Nat) : StepAcc :=
  { body := [], children := [], skipped := [], sortOrder := sort0 + 1, nextUuid := uuid0 + 1 }

/-- Accumulator state after scanning one step's content: gaps and matched
blocks in document order, then the trailing text. -/
def stepScanAcc (oracle : Oracle) (imagesDir chapterTitle articleTitle : String)
    (sort0 uuid0 : Nat) (step : SSStep) : StepAcc :=
  processGap (scanContent step.content).trailing
    ((scanContent step.content).pieces.foldl
      (processPiece oracle imagesDir chapterTitle articleTitle step.title)
      (stepAccInit sort0 uuid0))

/-- Process one step (lines 1587–1720 of main.go): emit the `StepContent`
header (depth 0), then scan the content and emit body blocks at depth 1;
the header's child-identifier list collects the body blocks' identifiers.
Returns the step's blocks, its skipped-image entries, and the next
sort-order and identifier values. -/
def processStep (oracle : Oracle) (imagesDir chapterTitle articleTitle : String)
    (sort0 uuid0 : Nat) (step : SSStep) :
    List CB × List SkippedImage × Nat × Nat :=
  let acc2 := stepScanAcc oracle imagesDir chapterTitle articleTitle sort0 uuid0 step
  ({ uuid := uuid0, kind := .step, title := step.title, depth := 0, sortOrder := sort0,
     childIds := acc2.children, anchorName := slugify step.title } :: acc2.body,
   acc2.skipped, acc2.sortOrder, acc2.nextUuid)

/-- One iteration of the uploader's step loop at article level, threading
the accumulated blocks, skipped entries, sort order and identifier
supply. -/
def stepFold (oracle : Oracle) (imagesDir chapterTitle articleTitle : String)
    (st : (List CB × List SkippedImage) × Nat × Nat) (step : SSStep) :
    (List CB × List SkippedImage) × Nat × Nat :=
  let r := processStep oracle imagesDir chapterTitle articleTitle st.2.1 st.2.2 step
  ((st.1.1 ++ r.1, st.1.2 ++ r.2.1), r.2.2.1, r.2.2.2)

/-- Process one article (lines 1580–1726 of main.go): fold the steps with
`sortOrder` starting at 1; `uuid0` seeds the fresh-identifier supply.
Returns the article's content-block list, its skipped-image entries, and
the next identifier. -/
def processArticle (oracle : Oracle) (contentDir chapterTitle : String)
    (article : SSArticle) (uuid0 : Nat) : List CB × List SkippedImage × Nat :=
  let imagesDir := contentDir ++ "/images/" ++ article.id
  let final := article.steps.foldl
    (stepFold oracle imagesDir chapterTitle article.title) (([], []), 1, uuid0)
  (final.1.1, final.1.2, final.2.2)

/-! ### Content-block invariants (claim C1) -/

/-- Sort orders are exactly the contiguous sequence `1, 2, …, n`. -/
def sortOrdersContiguous (blocks : List CB) : Bool :=
  blocks.map (fun b => b.sortOrder) == List.range' 1 blocks.length

/-- The claim's as-stated reference direction: every identifier in a
StepContent block's child list names a block at an earlier or equal
position in the list. -/
def childIdsResolveBackward (blocks : List CB) : Bool :=
  blocks.enum.all fun p =>
    p.2.kind != CBKind.step ||
    p.2.childIds.all fun cid => (blocks.take (p.1 + 1)).any fun b => b.uuid == cid

/-- Forward reference direction: every identifier in any block's child list
names a block strictly later in the list. -/
def childIdsResolveForward : List CB → Bool
  | [] => true
  | b :: rest =>
    (b.childIds.all fun cid => rest.any fun b2 => b2.uuid == cid) &&
    childIdsResolveForward rest

theorem range'_one_append (s m n : Nat) :
    List.range' s m ++ List.range' (s + m) n = List.range' s (m + n) := by
  have h := List.range'_append s m n 1
  simp only [one_mul] at h
  rw [h, Nat.add_comm n m]

theorem range'_snoc (s n : Nat) :
    List.range' s n ++ [s + n] = List.range' s (n + 1) := by
  have := range'_one_append s n 1
  simpa using this

theorem childIdsResolveForward_append {l1 l2 : List CB}
    (h1 : childIdsResolveForward l1 = true) (h2 : childIdsResolveForward l2 = true) :
    childIdsResolveForward (l1 ++ l2) = true := by
  induction l1 with
  | nil => simpa using h2
  | cons b rest ih =>
    simp only [childIdsResolveForward, Bool.and_eq_true, List.all_eq_true] at h1 ⊢
    refine ⟨?_, ih h1.2⟩
    intro cid hcid
    have := h1.1 cid hcid
    simp only [List.any_eq_true] at this ⊢
    obtain ⟨b2, hb2, hu⟩ := this
    exact ⟨b2, List.mem_append_left _ hb2, hu⟩

/-- Invariant maintained over one step's body-block accumulation. -/
def StepInv (sort0 : Nat) (acc : StepAcc) : Prop :=
  acc.body.map (fun b => b.sortOrder) = List.range' (sort0 + 1) acc.body.length ∧
  acc.sortOrder = sort0 + 1 + acc.body.length ∧
  (∀ c ∈ acc.children, c ∈ acc.body.map (fun b => b.uuid)) ∧
  (∀ b ∈ acc.body, b.childIds = [])

theorem StepInv.emit {sort0 : Nat} {acc : StepAcc} (mk : Nat → Nat → CB)
    (hmk : ∀ s u, (mk s u).sortOrder = s ∧ (mk s u).uuid = u ∧ (mk s u).childIds = [])
    (h : StepInv sort0 acc) : StepInv sort0 (emitBodyBlock mk acc) := by
  obtain ⟨hs, ho, hc, hi⟩ := h
  refine ⟨?_, ?_, ?_, ?_⟩
  · simp only [emitBodyBlock, List.map_append, List.length_append, List.map_cons,
      List.map_nil, List.length_cons, List.length_nil]
    rw [hs, (hmk acc.sortOrder acc.nextUuid).1, ho]
    have := range'_snoc (sort0 + 1) acc.body.length
    simpa [Nat.add_assoc] using this
  · simp only [emitBodyBlock, List.length_append, List.length_cons, List.length_nil]
    omega
  · intro c hcmem
    simp only [emitBodyBlock, List.mem_append, List.mem_cons, List.not_mem_nil] at hcmem
    simp only [emitBodyBlock, List.map_append, List.map_cons, List.map_nil, List.mem_append]
    rcases hcmem with hold | hnew
    · exact Or.inl (hc c hold)
    · rcases hnew with rfl | hfalse
      · exact Or.inr (by simp [(hmk acc.sortOrder acc.nextUuid).2.1])
      · exact absurd hfalse (by simp)
  · intro b hb
    simp only [emitBodyBlock, List.mem_append, List.mem_cons, List.not_mem_nil] at hb
    rcases hb with hold | hnew
    · exact hi b hold
    · rcases hnew with rfl | hfalse
      · exact (hmk acc.sortOrder acc.nextUuid).2.2
      · exact absurd hfalse (by simp)

theorem StepInv.skip {sort0 : Nat} {acc : StepAcc} (sk : List SkippedImage)
    (h : StepInv sort0 acc) : StepInv sort0 { acc with skipped := sk } := h

theorem StepInv.processGap {sort0 : Nat} {acc : StepAcc} (gap : String)
    (h : StepInv sort0 acc) : StepInv sort0 (VLP2SS.processGap gap acc) := by
  unfold VLP2SS.processGap
  split
  · exact h
  · apply h.emit
    intro s u
    exact ⟨rfl, rfl, rfl⟩

theorem StepInv.processBlock {sort0 : Nat} {acc : StepAcc} (oracle : Oracle)
    (imagesDir chapterTitle articleTitle stepTitle : String)
    (blockHTML : String) (kind : BlockKind)
    (h : StepInv sort0 acc) :
    StepInv sort0 (VLP2SS.processBlock oracle imagesDir chapterTitle articleTitle stepTitle
      blockHTML kind acc) := by
  unfold VLP2SS.processBlock
  cases kind with
  | img =>
    cases imgTagCapture blockHTML.data with
    | none => exact h
    | some srcRaw =>
      simp only
      cases oracle (imagePathOfSrc imagesDir srcRaw) with
      | missing => exact h.skip _
      | uploadFailed => exact h.skip _
      | noFileData => exact h
      | uploaded assetId w ht url =>
        apply h.emit
        intro s u
        exact ⟨rfl, rfl, rfl⟩
  | embed =>
    apply h.emit
    intro s u
    exact ⟨rfl, rfl, rfl⟩
  | styled =>
    cases styledCapture blockHTML.data with
    | none => exact h
    | some caps =>
      apply h.emit
      intro s u
      exact ⟨rfl, rfl, rfl⟩

theorem StepInv.processPiece {sort0 : Nat} {acc : StepAcc} (oracle : Oracle)
    (imagesDir chapterTitle articleTitle stepTitle : String) (p : ScannedPiece)
    (h : StepInv sort0 acc) :
    StepInv sort0 (VLP2SS.processPiece oracle imagesDir chapterTitle articleTitle stepTitle
      acc p) :=
  (h.processGap p.gap).processBlock oracle imagesDir chapterTitle articleTitle stepTitle
    p.blockHTML p.kind

theorem StepInv.foldl {sort0 : Nat} {acc : StepAcc} (oracle : Oracle)
    (imagesDir chapterTitle articleTitle stepTitle : String) (ps : List ScannedPiece)
    (h : StepInv sort0 acc) :
    StepInv sort0 (ps.foldl
      (VLP2SS.processPiece oracle imagesDir chapterTitle articleTitle stepTitle) acc) := by
  induction ps generalizing acc with
  | nil => exact h
  | cons p ps ih =>
    exact ih (h.processPiece oracle imagesDir chapterTitle articleTitle stepTitle p)

theorem stepScanAcc_inv (oracle : Oracle) (imagesDir chapterTitle articleTitle : String)
    (sort0 uuid0 : Nat) (step : SSStep) :
    StepInv sort0 (stepScanAcc oracle imagesDir chapterTitle articleTitle sort0 uuid0 step) := by
  have hinv0 : StepInv sort0 (stepAccInit sort0 uuid0) :=
    ⟨by simp [stepAccInit], by simp [stepAccInit], by simp [stepAccInit],
     by simp [stepAccInit]⟩
  exact (StepInv.foldl oracle imagesDir chapterTitle articleTitle step.title
    (scanContent step.content).pieces hinv0).processGap (scanContent step.content).trailing

/-- The block list one step produces: sort orders are `sort0, sort0+1, …`,
all child references resolve strictly forward, and the returned sort-order
counter equals `sort0` plus the number of emitted blocks. -/
theorem processStep_spec (oracle : Oracle) (imagesDir chapterTitle articleTitle : String)
    (sort0 uuid0 : Nat) (step : SSStep) :
    (processStep oracle imagesDir chapterTitle articleTitle sort0 uuid0 step).1.map
        (fun b => b.sortOrder) =
      List.range' sort0
        (processStep oracle imagesDir chapterTitle articleTitle sort0 uuid0 step).1.length ∧
    childIdsResolveForward
      (processStep oracle imagesDir chapterTitle articleTitle sort0 uuid0 step).1 = true ∧
    (processStep oracle imagesDir chapterTitle articleTitle sort0 uuid0 step).2.2.1 =
      sort0 +
        (processStep oracle imagesDir chapterTitle articleTitle sort0 uuid0 step).1.length := by
  obtain ⟨hs, ho, hc, hi⟩ :=
    stepScanAcc_inv oracle imagesDir chapterTitle articleTitle sort0 uuid0 step
  refine ⟨?_, ?_, ?_⟩
  · simp only [processStep, List.map_cons, List.length_cons]
    rw [hs, List.range'_succ]
  · simp only [processStep, childIdsResolveForward, Bool.and_eq_true, List.all_eq_true]
    constructor
    · intro cid hcid
      have := hc cid hcid
      simp only [List.mem_map] at this
      obtain ⟨b2, hb2, hu⟩ := this
      simp only [List.any_eq_true]
      exact ⟨b2, hb2, by simp [hu]⟩
    · have hbody : ∀ l : List CB, (∀ b ∈ l, b.childIds = []) →
          childIdsResolveForward l = true := by
        intro l
        induction l with
        | nil => intro _; rfl
        | cons b rest ih =>
          intro hl
          simp only [childIdsResolveForward, Bool.and_eq_true]
          exact ⟨by simp [hl b (List.mem_cons_self _ _)],
                 ih (fun b2 hb2 => hl b2 (List.mem_cons_of_mem _ hb2))⟩
      exact hbody _ hi
  · simp only [processStep, List.length_cons]
    omega

/-- Article-level fold invariant for claim C1: the accumulated block list
keeps contiguous sort orders from 1 and forward-resolving child lists. -/
theorem stepFold_inv (oracle : Oracle) (imagesDir chapterTitle articleTitle : String)
    (steps : List SSStep) :
    ∀ (bs : List CB) (sk : List SkippedImage) (u : Nat),
      bs.map (fun b => b.sortOrder) = List.range' 1 bs.length →
      childIdsResolveForward bs = true →
      ((steps.foldl (stepFold oracle imagesDir chapterTitle articleTitle)
          ((bs, sk), 1 + bs.length, u)).1.1.map (fun b => b.sortOrder) =
        List.range' 1 (steps.foldl (stepFold oracle imagesDir chapterTitle articleTitle)
          ((bs, sk), 1 + bs.length, u)).1.1.length ∧
       childIdsResolveForward (steps.foldl
          (stepFold oracle imagesDir chapterTitle articleTitle)
          ((bs, sk), 1 + bs.length, u)).1.1 = true) := by
  induction steps with
  | nil => intro bs sk u h1 h2; exact ⟨h1, h2⟩
  | cons step rest ih =>
    intro bs sk u h1 h2
    have hspec := processStep_spec oracle imagesDir chapterTitle articleTitle
      (1 + bs.length) u step
    set r := processStep oracle imagesDir chapterTitle articleTitle (1 + bs.length) u step
      with hrdef
    have happ1 : (bs ++ r.1).map (fun b => b.sortOrder) =
        List.range' 1 (bs ++ r.1).length := by
      rw [List.map_append, h1, hspec.1, List.length_append, range'_one_append]
    have happ2 : childIdsResolveForward (bs ++ r.1) = true :=
      childIdsResolveForward_append h2 hspec.2.1
    have hmid : r.2.2.1 = 1 + (bs ++ r.1).length := by
      rw [hspec.2.2, List.length_append]
      omega
    have hstep : (step :: rest).foldl (stepFold oracle imagesDir chapterTitle articleTitle)
        ((bs, sk), 1 + bs.length, u) =
        rest.foldl (stepFold oracle imagesDir chapterTitle articleTitle)
          ((bs ++ r.1, sk ++ r.2.1), 1 + (bs ++ r.1).length, r.2.2.2) := by
      simp only [List.foldl_cons, stepFold, ← hrdef, hmid]
    rw [hstep]
    exact ih (bs ++ r.1) (sk ++ r.2.1) r.2.2.2 happ1 happ2


/-! ### Claim C1 -/

/-- C1 counterexample: for a concrete article (one step whose content is
the plain text `hello`) the generated block list is `[StepContent header,
TextContent]` with contiguous sort orders 1, 2 — but the header's
child-identifier list names the TextContent block, which sits at a strictly
*later* position, so the claim's requirement that every referenced
identifier belong to a block at an earlier-or-equal position is false. -/
theorem claimC1_counterexample :
    sortOrdersContiguous (processArticle (fun _ => UploadOutcome.missing) "out" "Chapter"
      { id := "a1", title := "Article", position := 1, vlpOrder := 0,
        steps := [{ id := "s1", title := "Step One", order := 1, content := "hello",
                    images := [] }] } 0).1 = true ∧
    childIdsResolveBackward (processArticle (fun _ => UploadOutcome.missing) "out" "Chapter"
      { id := "a1", title := "Article", position := 1, vlpOrder := 0,
        steps := [{ id := "s1", title := "Step One", order := 1, content := "hello",
                    images := [] }] } 0).1 = false := by
  refine ⟨by decide, by decide⟩

/-- C1 (amended): for every article processed for upload — any step list,
any image-upload outcomes, any identifier supply — the generated
content-block list has sort orders forming the contiguous strictly
increasing sequence 1, 2, …, one increment per emitted block with the
StepContent header of each step emitted first, and every identifier in a
StepContent block's child-identifier list is the identifier of a block
present strictly *later* in that article's block list (the header
references the body blocks emitted after it). -/
theorem claimC1_sort_orders_and_child_references (oracle : Oracle)
    (contentDir chapterTitle : String) (article : SSArticle) (uuid0 : Nat) :
    sortOrdersContiguous
      (processArticle oracle contentDir chapterTitle article uuid0).1 = true ∧
    childIdsResolveForward
      (processArticle oracle contentDir chapterTitle article uuid0).1 = true := by
  have h := stepFold_inv oracle (contentDir ++ "/images/" ++ article.id) chapterTitle
    article.title article.steps [] [] uuid0 (by simp) rfl
  constructor
  · simp only [sortOrdersContiguous, processArticle, beq_iff_eq]
    exact h.1
  · simp only [processArticle]
    exact h.2

/-! ### Skipped-image accounting (claim C9) -/

/-- Outcomes that cause a skipped-image entry: the file is absent on disk or
the upload call fails. -/
def UploadOutcome.isSkip : UploadOutcome → Bool
  | .missing => true
  | .uploadFailed => true
  | _ => false

/-- The image path a matched block refers to, if it is an image block whose
`src` attribute is extractable. -/
def blockImagePath (imagesDir : String) (blockHTML : String) (kind : BlockKind) :
    Option String :=
  if kind = BlockKind.img then (imgTagCapture blockHTML.data).map (imagePathOfSrc imagesDir)
  else none

/-- Skipped-image contribution of one matched block. -/
def blockSkip (oracle : Oracle) (imagesDir chapterTitle articleTitle stepTitle : String)
    (blockHTML : String) (kind : BlockKind) : List SkippedImage :=
  match blockImagePath imagesDir blockHTML kind with
  | some path =>
    if (oracle path).isSkip then
      [{ imagePath := path, chapterTitle := chapterTitle, articleTitle := articleTitle,
         stepTitle := stepTitle }]
    else []
  | none => []

/-- Image paths one step's scanned content refers to, in document order. -/
def stepImagePaths (imagesDir : String) (step : SSStep) : List String :=
  (scanContent step.content).pieces.filterMap fun p =>
    blockImagePath imagesDir p.blockHTML p.kind

/-- Skipped-image list as the spec words it: exactly one entry per image
occurrence whose file is missing on disk or whose upload fails, recording
the chapter, article and step (titles) together with the image path, in
document order across the article's steps. -/
def skippedImagesSpec (oracle : Oracle) (imagesDir chapterTitle articleTitle : String)
    (steps : List SSStep) : List SkippedImage :=
  steps.flatMap fun step =>
    ((stepImagePaths imagesDir step).filter fun path => (oracle path).isSkip).map
      fun path =>
        { imagePath := path, chapterTitle := chapterTitle, articleTitle := articleTitle,
          stepTitle := step.title }

theorem processGap_skipped (gap : String) (acc : StepAcc) :
    (processGap gap acc).skipped = acc.skipped := by
  unfold processGap
  split
  · rfl
  · rfl

theorem processBlock_skipped (oracle : Oracle)
    (imagesDir chapterTitle articleTitle stepTitle : String)
    (blockHTML : String) (kind : BlockKind) (acc : StepAcc) :
    (processBlock oracle imagesDir chapterTitle articleTitle stepTitle
        blockHTML kind acc).skipped =
      acc.skipped ++ blockSkip oracle imagesDir chapterTitle articleTitle stepTitle
        blockHTML kind := by
  cases kind with
  | img =>
    unfold processBlock blockSkip blockImagePath
    cases hcap : imgTagCapture blockHTML.data with
    | none => simp
    | some srcRaw =>
      simp only [Option.map_some]
      cases hora : oracle (imagePathOfSrc imagesDir srcRaw) with
      | missing => simp [hora, UploadOutcome.isSkip]
      | uploadFailed => simp [hora, UploadOutcome.isSkip]
      | noFileData => simp [hora, UploadOutcome.isSkip]
      | uploaded assetId w h url => simp [hora, UploadOutcome.isSkip, emitBodyBlock]
  | embed => simp [processBlock, blockSkip, blockImagePath, emitBodyBlock]
  | styled =>
    unfold processBlock blockSkip blockImagePath
    cases styledCapture blockHTML.data with
    | none => simp
    | some caps => simp [emitBodyBlock]

theorem processPiece_skipped (oracle : Oracle)
    (imagesDir chapterTitle articleTitle stepTitle : String)
    (acc : StepAcc) (p : ScannedPiece) :
    (processPiece oracle imagesDir chapterTitle articleTitle stepTitle acc p).skipped =
      acc.skipped ++ blockSkip oracle imagesDir chapterTitle articleTitle stepTitle
        p.blockHTML p.kind := by
  unfold processPiece
  rw [processBlock_skipped, processGap_skipped]

theorem foldl_processPiece_skipped (oracle : Oracle)
    (imagesDir chapterTitle articleTitle stepTitle : String)
    (ps : List ScannedPiece) (acc : StepAcc) :
    (ps.foldl (processPiece oracle imagesDir chapterTitle articleTitle stepTitle)
        acc).skipped =
      acc.skipped ++ ps.flatMap fun p =>
        blockSkip oracle imagesDir chapterTitle articleTitle stepTitle
          p.blockHTML p.kind := by
  induction ps generalizing acc with
  | nil => simp
  | cons p ps ih =>
    simp only [List.foldl_cons, List.flatMap_cons]
    rw [ih, processPiece_skipped, List.append_assoc]

theorem flatMap_blockSkip_eq_filter (oracle : Oracle)
    (chapterTitle articleTitle stepTitle : String) {α : Type}
    (f : α → Option String) (ps : List α) :
    (ps.flatMap fun p =>
        match f p with
        | some path =>
          if (oracle path).isSkip then
            [{ imagePath := path, chapterTitle := chapterTitle,
               articleTitle := articleTitle, stepTitle := stepTitle : SkippedImage }]
          else []
        | none => []) =
      ((ps.filterMap f).filter fun path => (oracle path).isSkip).map fun path =>
        { imagePath := path, chapterTitle := chapterTitle, articleTitle := articleTitle,
          stepTitle := stepTitle } := by
  induction ps with
  | nil => rfl
  | cons p ps ih =>
    simp only [List.flatMap_cons, List.filterMap_cons]
    cases hf : f p with
    | none => simpa using ih
    | some path =>
      by_cases hs : (oracle path).isSkip = true
      · simp only [hs, if_true, List.filter_cons, List.map_cons]
        rw [ih]
        simp [hs]
      · simp only [hs, if_false, List.filter_cons]
        rw [ih]
        simp [hs]

theorem processStep_skipped (oracle : Oracle)
    (imagesDir chapterTitle articleTitle : String) (sort0 uuid0 : Nat) (step : SSStep) :
    (processStep oracle imagesDir chapterTitle articleTitle sort0 uuid0 step).2.1 =
      ((stepImagePaths imagesDir step).filter fun path => (oracle path).isSkip).map
        fun path =>
          { imagePath := path, chapterTitle := chapterTitle,
            articleTitle := articleTitle, stepTitle := step.title } := by
  have h1 : (processStep oracle imagesDir chapterTitle articleTitle sort0 uuid0
      step).2.1 =
      (scanContent step.content).pieces.flatMap fun p =>
        blockSkip oracle imagesDir chapterTitle articleTitle step.title
          p.blockHTML p.kind := by
    simp only [processStep, stepScanAcc]
    rw [processGap_skipped, foldl_processPiece_skipped]
    simp [stepAccInit]
  rw [h1, stepImagePaths]
  exact flatMap_blockSkip_eq_filter oracle chapterTitle articleTitle step.title
    (fun p => blockImagePath imagesDir p.blockHTML p.kind)
    (scanContent step.content).pieces

theorem stepFold_skipped (oracle : Oracle)
    (imagesDir chapterTitle articleTitle : String) (steps : List SSStep) :
    ∀ (bs : List CB) (sk : List SkippedImage) (s u : Nat),
      (steps.foldl (stepFold oracle imagesDir chapterTitle articleTitle)
          ((bs, sk), s, u)).1.2 =
        sk ++ skippedImagesSpec oracle imagesDir chapterTitle articleTitle steps := by
  induction steps with
  | nil => intro bs sk s u; simp [skippedImagesSpec]
  | cons step rest ih =>
    intro bs sk s u
    simp only [List.foldl_cons, stepFold, skippedImagesSpec, List.flatMap_cons]
    rw [ih, processStep_skipped, List.append_assoc]
    rfl

/-! ### Claim C9 -/

/-- C9: a Step image whose file is missing on disk (or whose upload fails)
never aborts the article or the run.  First conjunct: over a whole article,
the skipped-image list is exactly one entry per missing-or-failed image
occurrence, recording the chapter, article and step titles with the image
path, for every step of the article (processing reaches every block).
Second conjunct: processing a single image block whose outcome is missing
or failed changes the accumulator only by appending that one skipped entry
— no content block is emitted for the image, the sort order and
child-identifier list are untouched, and the loop continues from the same
state. -/
theorem claimC9_missing_image_skipped (oracle : Oracle) (contentDir chapterTitle : String)
    (article : SSArticle) (uuid0 : Nat)
    (imagesDir2 chT2 arT2 stT2 : String) (blockHTML : String) (srcRaw : List Char)
    (acc : StepAcc)
    (hcap : imgTagCapture blockHTML.data = some srcRaw)
    (hmiss : oracle (imagePathOfSrc imagesDir2 srcRaw) = UploadOutcome.missing ∨
             oracle (imagePathOfSrc imagesDir2 srcRaw) = UploadOutcome.uploadFailed) :
    (processArticle oracle contentDir chapterTitle article uuid0).2.1 =
      skippedImagesSpec oracle (contentDir ++ "/images/" ++ article.id) chapterTitle
        article.title article.steps ∧
    processBlock oracle imagesDir2 chT2 arT2 stT2 blockHTML BlockKind.img acc =
      { acc with skipped := acc.skipped ++
          [{ imagePath := imagePathOfSrc imagesDir2 srcRaw, chapterTitle := chT2,
             articleTitle := arT2, stepTitle := stT2 }] } := by
  constructor
  · simp only [processArticle]
    rw [stepFold_skipped]
    simp
  · unfold processBlock
    rw [hcap]
    rcases hmiss with hm | hm <;> simp [hm]

/-- C9 witness: a concrete missing image — the oracle reports every path
missing; the block for `<img src="./shot.png">` is dropped and exactly one
entry `(out/images/a1, Chapter, Article, Step)` is recorded. -/
theorem claimC9_witness :
    (processArticle (fun _ => UploadOutcome.missing) "out" "Chapter"
      { id := "a1", title := "Article", position := 1, vlpOrder := 0,
        steps := [{ id := "s1", title := "Step", order := 1,
                    content := "<img src=\"./shot.png\">", images := [] }] } 0).2.1 =
      skippedImagesSpec (fun _ => UploadOutcome.missing) ("out" ++ "/images/" ++ "a1")
        "Chapter" "Article"
        [{ id := "s1", title := "Step", order := 1,
           content := "<img src=\"./shot.png\">", images := [] }] ∧
    processBlock (fun _ => UploadOutcome.missing) "imgs" "C" "A" "S"
        "<img src=\"./shot.png\">" BlockKind.img
        { body := [], children := [], skipped := [], sortOrder := 2, nextUuid := 1 } =
      { body := [], children := [],
        skipped := [{ imagePath := imagePathOfSrc "imgs" "./shot.png".data,
                      chapterTitle := "C", articleTitle := "A", stepTitle := "S" }],
        sortOrder := 2, nextUuid := 1 } :=
  claimC9_missing_image_skipped (fun _ => UploadOutcome.missing) "out" "Chapter"
    { id := "a1", title := "Article", position := 1, vlpOrder := 0,
      steps := [{ id := "s1", title := "Step", order := 1,
                  content := "<img src=\"./shot.png\">", images := [] }] } 0
    "imgs" "C" "A" "S" "<img src=\"./shot.png\">" "./shot.png".data
    { body := [], children := [], skipped := [], sortOrder := 2, nextUuid := 1 }
    (by decide) (Or.inl rfl)

/-! ## The HTML rewriter (`cleanHTML` and helpers, main.go lines 1101–1328)

Each Go regex pass below is modelled by a scanner implementing that
pattern's leftmost-first semantics, as in the upload section. -/

def classEqLit : List Char := "class=\"".data

def ytClassLit : List Char := "mediatag-thumb youtube-thumb".data

def mediaIdLit : List Char := "data-media-id=\"".data

def thumbUrlLit : List Char := "data-thumb-url=\"".data

def ytViLit : List Char := "youtube.com/vi/".data

def divOpenLit : List Char := "<div".data

/-- Match
`<div[^>]*class="[^"]*mediatag-thumb youtube-thumb[^"]*"[^>]*data-media-id="([^"]+)"[^>]*>.*?</div>`
at the head of `s`; returns the match length and the video-id capture. -/
def matchYt1At (s : List Char) : Option (Nat × List Char) :=
  if divOpenLit.isPrefixOf s then
    let r0 := s.drop divOpenLit.length
    (starLitCandidates (· ≠ '>') classEqLit r0).reverse.findSome? fun p1 =>
      let r1 := r0.drop (p1 + classEqLit.length)
      (starLitCandidates (· ≠ '"') ytClassLit r1).reverse.findSome? fun p2 =>
        let r2 := r1.drop (p2 + ytClassLit.length)
        match findSubIdx ['"'] r2 with
        | none => none
        | some q =>
          let r3 := r2.drop (q + 1)
          (starLitCandidates (· ≠ '>') mediaIdLit r3).reverse.findSome? fun p3 =>
            let r4 := r3.drop (p3 + mediaIdLit.length)
            match findSubIdx ['"'] r4 with
            | none => none
            | some q2 =>
              if q2 = 0 then none
              else
                let r5 := r4.drop (q2 + 1)
                match findSubIdx ['>'] r5 with
                | none => none
                | some q3 =>
                  let r6 := r5.drop (q3 + 1)
                  (findSubIdxNoNL closeDivLit r6).map fun j =>
                    (divOpenLit.length + p1 + classEqLit.length + p2 + ytClassLit.length +
                       q + 1 + p3 + mediaIdLit.length + q2 + 1 + q3 + 1 + j +
                       closeDivLit.length,
                     r4.take q2)
  else none

/-- Match the fallback pattern
`<div[^>]*class="[^"]*mediatag-thumb youtube-thumb[^"]*"[^>]*data-thumb-url="[^"]*youtube\.com/vi/([^/]+)/[^"]*"[^>]*>.*?</div>`
at the head of `s`. -/
def matchYt2At (s : List Char) : Option (Nat × List Char) :=
  if divOpenLit.isPrefixOf s then
    let r0 := s.drop divOpenLit.length
    (starLitCandidates (· ≠ '>') classEqLit r0).reverse.findSome? fun p1 =>
      let r1 := r0.drop (p1 + classEqLit.length)
      (starLitCandidates (· ≠ '"') ytClassLit r1).reverse.findSome? fun p2 =>
        let r2 := r1.drop (p2 + ytClassLit.length)
        match findSubIdx ['"'] r2 with
        | none => none
        | some q =>
          let r3 := r2.drop (q + 1)
          (starLitCandidates (· ≠ '>') thumbUrlLit r3).reverse.findSome? fun p3 =>
            let r4 := r3.drop (p3 + thumbUrlLit.length)
            (starLitCandidates (· ≠ '"') ytViLit r4).reverse.findSome? fun p4 =>
              let r5 := r4.drop (p4 + ytViLit.length)
              match findSubIdx ['/'] r5 with
              | none => none
              | some c1 =>
                if c1 = 0 then none
                else
                  let r6 := r5.drop (c1 + 1)
                  match findSubIdx ['"'] r6 with
                  | none => none
                  | some q2 =>
                    let r7 := r6.drop (q2 + 1)
                    match findSubIdx ['>'] r7 with
                    | none => none
                    | some q3 =>
                      let r8 := r7.drop (q3 + 1)
                      (findSubIdxNoNL closeDivLit r8).map fun j =>
                        (divOpenLit.length + p1 + classEqLit.length + p2 +
                           ytClassLit.length + q + 1 + p3 + thumbUrlLit.length + p4 +
                           ytViLit.length + c1 + 1 + q2 + 1 + q3 + 1 + j +
                           closeDivLit.length,
                         r5.take c1)
  else none

/-- `FindAllStringSubmatch`: all non-overlapping leftmost matches with their
captures, scanning left to right. -/
def findAllAux (matcher : List Char → Option (Nat × List Char)) :
    Nat → List Char → List (List Char × List Char)
  | 0, _ => []
  | _ + 1, [] => []
  | fuel + 1, s@(_ :: rest) =>
    match matcher s with
    | some (n, cap) => (s.take n, cap) :: findAllAux matcher fuel (s.drop n)
    | none => findAllAux matcher fuel rest

def findAllMatches (matcher : List Char → Option (Nat × List Char)) (s : List Char) :
    List (List Char × List Char) :=
  findAllAux matcher (s.length + 1) s

/-- `strings.Replace(s, pat, repl, 1)`: replace the first occurrence. -/
def replaceFirstSub (pat repl s : List Char) : List Char :=
  match findSubIdx pat s with
  | some i => s.take i ++ repl ++ s.drop (i + pat.length)
  | none => s

/-- The ScreenSteps embed HTML the converter substitutes for a recognized
YouTube block (main.go lines 1284–1290 and 1312–1318). -/
def youTubeEmbedHTML (videoID : List Char) : List Char :=
  ("<div class=\"html-embed\">" ++
   "<iframe width=\"560\" height=\"315\" src=\"https://www.youtube.com/embed/").data ++
  videoID ++
  ("\" title=\"YouTube video player\" frameborder=\"0\" " ++
   "allow=\"accelerometer; autoplay; clipboard-write; encrypted-media; gyroscope; " ++
   "picture-in-picture; web-share\" " ++
   "referrerpolicy=\"strict-origin-when-cross-origin\" allowfullscreen></iframe></div>").data

/-- `convertYouTubeEmbeds` from main.go (lines 1269–1328): find all
data-media-id matches and replace each one's first occurrence; then, on the
result, the same with the data-thumb-url fallback pattern (guarded by the
redundant `strings.Contains` check the source performs). -/
def convertYouTubeEmbeds (s : String) : String :=
  let s1 := (findAllMatches matchYt1At s.data).foldl
    (fun cur m => replaceFirstSub m.1 (youTubeEmbedHTML m.2) cur) s.data
  let s2 := (findAllMatches matchYt2At s1).foldl
    (fun cur m =>
      if containsSub "mediatag-thumb".data m.1 then
        replaceFirstSub m.1 (youTubeEmbedHTML m.2) cur
      else cur) s1
  ⟨s2⟩

/-! ### Paragraph-style grouping (`convertVLPParagraphStyles`, lines 1192–1267) -/

/-- `pClassToStyleMap` from main.go.  The Go code iterates this *map* with
`range`, whose order is randomized per run; passes over it are therefore
parameterized by an iteration order below. -/
def pClassToStyleList : List (String × String) :=
  [("c10", "introduction"), ("c44", "introduction"), ("c48", "info")]

def pOpenLit : List Char := "<p".data

def closePLit : List Char := "</p>".data

def wordChar (c : Char) : Bool := isAlnumChar c || c = '_'

/-- `\bw\b` occurs in `attr` starting at offset `i`. -/
def containsWordAt (w attr : List Char) (i : Nat) : Bool :=
  w.isPrefixOf (attr.drop i) &&
  (decide (i = 0) || !wordChar (attr.getD (i - 1) ' ')) &&
  (decide (i + w.length = attr.length) || !wordChar (attr.getD (i + w.length) ' '))

/-- The regex piece `[^"]*\bw\b[^"]*` matches `attr` entirely. -/
def containsWord (w attr : List Char) : Bool :=
  (List.range (attr.length + 1)).any fun i => containsWordAt w attr i

/-- The run a `[^"]*` piece consumes: characters up to the next quote. -/
def takeNonQuote (s : List Char) : List Char := s.takeWhile (fun x => x ≠ '"')

/-- The run a greedy `\s*`/`\s+` piece consumes. -/
def takeReSpaces (s : List Char) : List Char := s.takeWhile isReSpace

/-- Match one repetition `<p\s+class="[^"]*\bcls\b[^"]*".*?</p>\s*` (inside
a `(?s)` group) at the head of `s`; returns the consumed length (through
the trailing whitespace) and the `<p…</p>` tag text. -/
def matchStyledPAt (cls : List Char) (s : List Char) : Option (Nat × List Char) :=
  if pOpenLit.isPrefixOf s then
    let r0 := s.drop pOpenLit.length
    let ws := takeReSpaces r0
    if ws.isEmpty then none
    else
      let r1 := r0.drop ws.length
      if classEqLit.isPrefixOf r1 then
        let r2 := r1.drop classEqLit.length
        let attr := takeNonQuote r2
        match r2.drop attr.length with
        | '"' :: r3 =>
          if containsWord cls attr then
            match findSubIdx closePLit r3 with
            | none => none
            | some j =>
              let tagLen := pOpenLit.length + ws.length + classEqLit.length +
                attr.length + 1 + j + closePLit.length
              let ws2 := takeReSpaces (s.drop tagLen)
              some (tagLen + ws2.length, s.take tagLen)
          else none
        | _ => none
      else none
  else none

/-- Match the maximal run `(?:<p\s+class="[^"]*\bcls\b[^"]*".*?</p>\s*)+`
at the head of `s`: repetitions are taken greedily and the engine stops at
the first failing repetition (stopping is preferred over re-interpreting an
earlier repetition's lazy dot).  Returns consumed length and the tags. -/
def matchStyledRunAt (cls : List Char) : Nat → List Char → Option (Nat × List (List Char))
  | 0, _ => none
  | fuel + 1, s =>
    match matchStyledPAt cls s with
    | none => none
    | some (n, tag) =>
      match matchStyledRunAt cls fuel (s.drop n) with
      | some (m, tags) => some (n + m, tag :: tags)
      | none => some (n, [tag])

/-- Offset of the last occurrence of `pat` (the greedy `(.*)` of Go's
`tagContentRegex` reaches the last `</p>`). -/
def lastSubIdx (pat : List Char) : List Char → Option Nat
  | [] => if pat.isEmpty then some 0 else none
  | s@(_ :: rest) =>
    match lastSubIdx pat rest with
    | some i => some (i + 1)
    | none => if pat.isPrefixOf s then some 0 else none

/-- Leftmost match of `(?s)<p[^>]*>(.*)</p>` with its greedy capture. -/
def pTagInnerAt (s : List Char) : Option (List Char) :=
  if pOpenLit.isPrefixOf s then
    match findSubIdx ['>'] (s.drop pOpenLit.length) with
    | none => none
    | some i =>
      let rest := s.drop (pOpenLit.length + i + 1)
      (lastSubIdx closePLit rest).map fun j => rest.take j
  else none

def pTagInner : List Char → Option (List Char)
  | [] => none
  | s@(_ :: rest) =>
    match pTagInnerAt s with
    | some r => some r
    | none => pTagInner rest

/-- Replacement for one matched run (main.go lines 1208–1263): paragraphs
with non-empty tag-stripped text are concatenated into one styled wrapper
div; image-only paragraphs are appended after it; paragraphs with neither
are dropped; a run with neither text nor images becomes the empty string. -/
def styledBlockReplacement (style : List Char) (pTags : List (List Char)) : List Char :=
  let contentTags := pTags.filter fun tag =>
    match pTagInner tag with
    | some inner => !(trimSpaceList (stripTagsList inner)).isEmpty
    | none => false
  let imageTags := pTags.filter fun tag =>
    match pTagInner tag with
    | some inner =>
      (trimSpaceList (stripTagsList inner)).isEmpty && containsSub "<img".data tag
    | none => false
  (if contentTags.isEmpty then []
   else
     "<div class=\"screensteps-styled-block\" data-style=\"".data ++ style ++
       "\">".data ++ contentTags.flatten ++ "</div>".data) ++
  imageTags.flatten

def paragraphStylePassAux (cls style : List Char) : Nat → List Char → List Char
  | 0, s => s
  | _ + 1, [] => []
  | fuel + 1, s@(c :: rest) =>
    match matchStyledRunAt cls s.length s with
    | some (n, tags) =>
      styledBlockReplacement style tags ++ paragraphStylePassAux cls style fuel (s.drop n)
    | none => c :: paragraphStylePassAux cls style fuel rest

/-- One class's pass of `convertVLPParagraphStyles` (the loop body for one
`pClass, style` pair). -/
def paragraphStylePass (cls style : String) (s : String) : String :=
  ⟨paragraphStylePassAux cls.data style.data s.data.length s.data⟩

/-- `convertVLPParagraphStyles` from main.go (lines 1192–1267), with the
map iteration order as an explicit parameter (Go randomizes it). -/
def convertVLPParagraphStyles (order : List (String × String)) (s : String) : String :=
  order.foldl (fun cur p => paragraphStylePass p.1 p.2 cur) s

/-! ### Inline span mapping (lines 1132–1187) -/

def spanOpenLit : List Char := "<span".data

def closeSpanLit : List Char := "</span>".data

/-- `classToTagMap` from main.go. -/
def classToTagList : List (String × String) :=
  [("c0", "strong"), ("c3", "strong"), ("c5", "strong"), ("c6", "code"), ("c7", "strong")]

/-- The replacement decision of the span rewrite callback (lines
1145–1178): `c5` anywhere in the class list wins and maps to `strong`;
otherwise the first class present in the table decides; otherwise the span
is unwrapped. -/
def spanReplacementTag (classAttr : List Char) : Option (List Char) :=
  let classes := fieldsList classAttr
  if classes.any (· == "c5".data) then some "strong".data
  else
    classes.findSome? fun cl =>
      (classToTagList.find? (fun p => p.1.data == cl)).map (fun p => p.2.data)

/-- Match `<span\s+class="([^"]+)"[^>]*>(.*?)</span>` (no `(?s)`) at the
head of `s`: returns length, class capture and content capture. -/
def matchSpanAt (s : List Char) : Option (Nat × List Char × List Char) :=
  if spanOpenLit.isPrefixOf s then
    let r0 := s.drop spanOpenLit.length
    let ws := takeReSpaces r0
    if ws.isEmpty then none
    else
      let r1 := r0.drop ws.length
      if classEqLit.isPrefixOf r1 then
        let r2 := r1.drop classEqLit.length
        let attr := takeNonQuote r2
        if attr.isEmpty then none
        else
          match r2.drop attr.length with
          | '"' :: r3 =>
            match findSubIdx ['>'] r3 with
            | none => none
            | some i =>
              let r4 := r3.drop (i + 1)
              (findSubIdxNoNL closeSpanLit r4).map fun j =>
                (spanOpenLit.length + ws.length + classEqLit.length + attr.length + 1 +
                   i + 1 + j + closeSpanLit.length,
                 attr, r4.take j)
          | _ => none
      else none
  else none

def spanWrap (tag content : List Char) : List Char :=
  '<' :: (tag ++ '>' :: (content ++ '<' :: '/' :: (tag ++ ['>'])))

def spanPassAux : Nat → List Char → List Char
  | 0, s => s
  | _ + 1, [] => []
  | fuel + 1, s@(c :: rest) =>
    match matchSpanAt s with
    | some (n, attr, content) =>
      (match spanReplacementTag attr with
       | some tag => spanWrap tag content
       | none => content) ++ spanPassAux fuel (s.drop n)
    | none => c :: spanPassAux fuel rest

/-- The single-pass span rewrite (`spanRegex.ReplaceAllStringFunc`). -/
def spanPass (s : String) : String := ⟨spanPassAux s.data.length s.data⟩

/-- Match `<span[^>]*>\s*</span>` at the head of `s`. -/
def matchEmptySpanAt (s : List Char) : Option Nat :=
  if spanOpenLit.isPrefixOf s then
    match findSubIdx ['>'] (s.drop spanOpenLit.length) with
    | none => none
    | some i =>
      let r1 := s.drop (spanOpenLit.length + i + 1)
      let ws := takeReSpaces r1
      if closeSpanLit.isPrefixOf (r1.drop ws.length) then
        some (spanOpenLit.length + i + 1 + ws.length + closeSpanLit.length)
      else none
  else none

def emptySpanPassAux : Nat → List Char → List Char
  | 0, s => s
  | _ + 1, [] => []
  | fuel + 1, s@(c :: rest) =>
    match matchEmptySpanAt s with
    | some n => emptySpanPassAux fuel (s.drop n)
    | none => c :: emptySpanPassAux fuel rest

/-- Strip spans left fully empty (`emptySpanPattern`, line 1182). -/
def emptySpanPass (s : String) : String := ⟨emptySpanPassAux s.data.length s.data⟩

/-! ### Ordered-list `start` attribute removal (lines 1186–1187) -/

def olOpenLit : List Char := "<ol".data

def startEqLit : List Char := " start=\"".data

/-- Match `(<ol[^>]*) start="[^"]*"` at the head of `s`; returns the full
match length and the group-1 length (the greedy `[^>]*` takes the rightmost
feasible ` start="` occurrence). -/
def matchOlStartAt (s : List Char) : Option (Nat × Nat) :=
  if olOpenLit.isPrefixOf s then
    let r0 := s.drop olOpenLit.length
    (starLitCandidates (· ≠ '>') startEqLit r0).reverse.findSome? fun p =>
      let r1 := r0.drop (p + startEqLit.length)
      (findSubIdx ['"'] r1).map fun q =>
        (olOpenLit.length + p + startEqLit.length + q + 1, olOpenLit.length + p)
  else none

def olStartPassAux : Nat → List Char → List Char
  | 0, s => s
  | _ + 1, [] => []
  | fuel + 1, s@(c :: rest) =>
    match matchOlStartAt s with
    | some (n, g1) => s.take g1 ++ olStartPassAux fuel (s.drop n)
    | none => c :: olStartPassAux fuel rest

/-- Remove spurious `start` attributes from `<ol>` tags. -/
def olStartPass (s : String) : String := ⟨olStartPassAux s.data.length s.data⟩

/-! ### Relative image path rewriting (lines 1115–1116) -/

/-- Match `src=["']\.\/` at the head of `s`. -/
def matchSrcDotAt (s : List Char) : Option Nat :=
  match s with
  | 's' :: 'r' :: 'c' :: '=' :: q :: '.' :: '/' :: _ =>
    if q = '"' || q = '\'' then some 7 else none
  | _ => none

def imgSrcPassAux : Nat → List Char → List Char
  | 0, s => s
  | _ + 1, [] => []
  | fuel + 1, s@(c :: rest) =>
    match matchSrcDotAt s with
    | some n => "src=\"".data ++ imgSrcPassAux fuel (s.drop n)
    | none => c :: imgSrcPassAux fuel rest

/-- Rewrite relative image source prefixes `./` to bare filenames. -/
def imgSrcPass (s : String) : String := ⟨imgSrcPassAux s.data.length s.data⟩

/-! ### The composed cleaner -/

/-- `convertVLPFormatting` from main.go (lines 1121–1190): YouTube embeds,
then paragraph styles (map order is the explicit `order` parameter), then
the span rewrite, empty-span strip, and `<ol start>` normalization. -/
def convertVLPFormatting (order : List (String × String)) (s : String) : String :=
  if s = "" then ""
  else olStartPass (emptySpanPass (spanPass
    (convertVLPParagraphStyles order (convertYouTubeEmbeds s))))

/-- `cleanHTML` from main.go (lines 1101–1119): double entity decode,
`convertVLPFormatting`, image path fix, trim. -/
def cleanHTML (order : List (String × String)) (s : String) : String :=
  if s = "" then ""
  else
    ⟨trimSpaceList (imgSrcPass (convertVLPFormatting order
      (unescapeString (unescapeString s)))).data⟩

/-! ## Scanner lemmas

Facts about the scanning primitives on structured inputs, used to settle
the rewriter claims for arbitrary embedded text. -/

theorem isPrefixOf_append_self (l r : List Char) : l.isPrefixOf (l ++ r) = true := by
  induction l with
  | nil => simp [List.isPrefixOf]
  | cons c cs ih => simp [List.isPrefixOf, ih]

theorem takeWhile_append_stop (p : Char → Bool) (l : List Char) (c : Char) (r : List Char)
    (hl : ∀ x ∈ l, p x = true) (hc : p c = false) :
    (l ++ c :: r).takeWhile p = l := by
  induction l with
  | nil => simp [List.takeWhile, hc]
  | cons a as ih =>
    have ha : p a = true := hl a (List.mem_cons_self _ _)
    simp only [List.cons_append, List.takeWhile_cons, ha]
    simp [ih (fun x hx => hl x (List.mem_cons_of_mem _ hx))]

theorem findSubIdx_self (pat r : List Char) (h : pat ≠ []) :
    findSubIdx pat (pat ++ r) = some 0 := by
  cases pat with
  | nil => exact absurd rfl h
  | cons c cs => simp [findSubIdx, isPrefixOf_append_self]

theorem findSubIdx_step (pat : List Char) (c : Char) (s : List Char)
    (h : pat.isPrefixOf (c :: s) = false) :
    findSubIdx pat (c :: s) = (findSubIdx pat s).map (· + 1) := by
  simp [findSubIdx, h]

theorem findSubIdx_skip (p0 : Char) (pt l r : List Char) (hl : ∀ x ∈ l, x ≠ p0) :
    findSubIdx (p0 :: pt) (l ++ r) =
      (findSubIdx (p0 :: pt) r).map (· + l.length) := by
  induction l with
  | nil => cases h : findSubIdx (p0 :: pt) r <;> simp [h]
  | cons c cs ih =>
    have hc : (p0 == c) = false := by
      have := hl c (List.mem_cons_self _ _)
      simp [beq_iff_eq]
      exact fun hh => this hh.symm
    have hpre : (p0 :: pt).isPrefixOf (c :: (cs ++ r)) = false := by
      simp [List.isPrefixOf, hc]
    rw [List.cons_append, findSubIdx_step _ _ _ hpre,
      ih (fun x hx => hl x (List.mem_cons_of_mem _ hx))]
    cases h : findSubIdx (p0 :: pt) r with
    | none => rfl
    | some i => rfl

theorem findSubIdxNoNL_self (pat r : List Char) (h : pat ≠ []) :
    findSubIdxNoNL pat (pat ++ r) = some 0 := by
  cases pat with
  | nil => exact absurd rfl h
  | cons c cs => simp [findSubIdxNoNL, isPrefixOf_append_self]

theorem findSubIdxNoNL_step (pat : List Char) (c : Char) (s : List Char)
    (h : pat.isPrefixOf (c :: s) = false) (hc : c ≠ '\n') :
    findSubIdxNoNL pat (c :: s) = (findSubIdxNoNL pat s).map (· + 1) := by
  simp [findSubIdxNoNL, h, hc]

theorem findSubIdxNoNL_skip (p0 : Char) (pt l r : List Char)
    (hl : ∀ x ∈ l, x ≠ p0 ∧ x ≠ '\n') :
    findSubIdxNoNL (p0 :: pt) (l ++ r) =
      (findSubIdxNoNL (p0 :: pt) r).map (· + l.length) := by
  induction l with
  | nil => cases h : findSubIdxNoNL (p0 :: pt) r <;> simp [h]
  | cons c cs ih =>
    have hc : (p0 == c) = false := by
      have := (hl c (List.mem_cons_self _ _)).1
      simp [beq_iff_eq]
      exact fun hh => this hh.symm
    have hpre : (p0 :: pt).isPrefixOf (c :: (cs ++ r)) = false := by
      simp [List.isPrefixOf, hc]
    rw [List.cons_append, findSubIdxNoNL_step _ _ _ hpre (hl c (List.mem_cons_self _ _)).2,
      ih (fun x hx => hl x (List.mem_cons_of_mem _ hx))]
    cases h : findSubIdxNoNL (p0 :: pt) r with
    | none => rfl
    | some i => rfl

theorem isEmpty_false_of_ne_nil {l : List Char} (h : l ≠ []) : l.isEmpty = false := by
  cases l with
  | nil => exact absurd rfl h
  | cons a as => rfl

theorem takeNonQuote_append (attr : List Char) (r : List Char)
    (hq : ∀ x ∈ attr, x ≠ '"') :
    takeNonQuote (attr ++ '"' :: r) = attr :=
  takeWhile_append_stop _ _ _ _ (fun x hx => by simp [hq x hx]) (by simp)

theorem drop_length_add (l r : List Char) (k : Nat) :
    (l ++ r).drop (l.length + k) = r.drop k := by
  induction l with
  | nil => simp
  | cons c cs ih => simp [Nat.succ_add, ih]

theorem spanPassAux_nil (fuel : Nat) : spanPassAux fuel [] = [] := by
  cases fuel <;> rfl

theorem emptySpanPassAux_nil (fuel : Nat) : emptySpanPassAux fuel [] = [] := by
  cases fuel <;> rfl

/-! ### The span rewrite on one canonical span (claim C4)

The canonical input list below is the character sequence of
`<span class="ATTR">CONTENT</span>`. -/

theorem matchSpanAt_canonical (attr content : List Char)
    (hne : attr ≠ []) (hq : ∀ x ∈ attr, x ≠ '"')
    (hc : ∀ x ∈ content, x ≠ '<' ∧ x ≠ '\n') :
    matchSpanAt (spanOpenLit ++ ' ' :: (classEqLit ++ (attr ++ '"' :: '>' ::
        (content ++ closeSpanLit)))) =
      some (spanOpenLit.length + 1 + classEqLit.length + attr.length + 1 + 0 + 1 +
        content.length + closeSpanLit.length, attr, content) := by
  have hspace : takeReSpaces (' ' :: (classEqLit ++ (attr ++ '"' :: '>' ::
      (content ++ closeSpanLit)))) = [' '] := rfl
  have hq2 : takeNonQuote (attr ++ '"' :: '>' :: (content ++ closeSpanLit)) = attr :=
    takeNonQuote_append _ _ hq
  have hfind : findSubIdx ['>'] ('>' :: (content ++ closeSpanLit)) = some 0 := by
    simp [findSubIdx, List.isPrefixOf]
  have hfind2 : findSubIdxNoNL closeSpanLit (content ++ closeSpanLit) =
      some content.length := by
    have h0 : closeSpanLit = '<' :: "/span>".data := rfl
    have hself : findSubIdxNoNL closeSpanLit closeSpanLit = some 0 := by
      have := findSubIdxNoNL_self closeSpanLit [] (by simp [h0])
      simpa using this
    rw [h0, findSubIdxNoNL_skip _ _ _ _ hc, ← h0, hself]
    simp
  simp only [matchSpanAt, isPrefixOf_append_self, if_true, List.drop_left, hspace]
  simp only [List.isEmpty_cons, Bool.false_eq_true, if_false, List.length_cons,
    List.length_nil, List.drop_succ_cons, List.drop_zero, List.drop_left,
    isPrefixOf_append_self, if_true, hq2, isEmpty_false_of_ne_nil hne]
  simp [hfind, hfind2, List.take_left]

theorem spanPassAux_whole (s : List Char) (n : Nat) (attr content : List Char)
    (hm : matchSpanAt s = some (n, attr, content)) (hn : s.length ≤ n) (hs : s ≠ []) :
    spanPassAux s.length s =
      (match spanReplacementTag attr with
       | some tag => spanWrap tag content
       | none => content) := by
  cases s with
  | nil => exact absurd rfl hs
  | cons x xs =>
    simp only [List.length_cons, spanPassAux, hm]
    have hdrop : (x :: xs).drop n = [] := by
      apply List.drop_eq_nil_of_le
      simpa using hn
    rw [hdrop, spanPassAux_nil, List.append_nil]

/-- The span rewrite on one canonical span: the replaced text is decided by
`spanReplacementTag` on the class attribute. -/
theorem spanPass_canonical (attr content : List Char)
    (hne : attr ≠ []) (hq : ∀ x ∈ attr, x ≠ '"')
    (hc : ∀ x ∈ content, x ≠ '<' ∧ x ≠ '\n') :
    spanPass ⟨spanOpenLit ++ ' ' :: (classEqLit ++ (attr ++ '"' :: '>' ::
        (content ++ closeSpanLit)))⟩ =
      ⟨match spanReplacementTag attr with
       | some tag => spanWrap tag content
       | none => content⟩ := by
  have hm := matchSpanAt_canonical attr content hne hq hc
  show String.mk (spanPassAux _ _) = _
  rw [spanPassAux_whole _ _ _ _ hm (by simp; omega) (by simp)]

theorem findSome?_tag_append (l1 l2 : List (List Char)) (cl : List Char)
    (pr : String × String)
    (h1 : ∀ c' ∈ l1, classToTagList.find? (fun p => p.1.data == c') = none)
    (hcl : classToTagList.find? (fun p => p.1.data == cl) = some pr) :
    ((l1 ++ cl :: l2).findSome? fun c =>
      (classToTagList.find? (fun p => p.1.data == c)).map (fun p => p.2.data)) =
      some pr.2.data := by
  induction l1 with
  | nil => simp [List.findSome?_cons, hcl]
  | cons a as ih =>
    simp [List.findSome?_cons, h1 a (List.mem_cons_self _ _),
      ih (fun c' hc' => h1 c' (List.mem_cons_of_mem _ hc'))]

theorem findSome?_tag_none (l : List (List Char))
    (h : ∀ c' ∈ l, classToTagList.find? (fun p => p.1.data == c') = none) :
    (l.findSome? fun c =>
      (classToTagList.find? (fun p => p.1.data == c)).map (fun p => p.2.data)) = none := by
  induction l with
  | nil => rfl
  | cons a as ih =>
    simp [List.findSome?_cons, h a (List.mem_cons_self _ _),
      ih (fun c' hc' => h c' (List.mem_cons_of_mem _ hc'))]

/-- A class list containing `c5` maps to `strong`, whatever else it holds. -/
theorem spanReplacementTag_c5 (attr : List Char) (h : "c5".data ∈ fieldsList attr) :
    spanReplacementTag attr = some "strong".data := by
  unfold spanReplacementTag
  have hany : (fieldsList attr).any (· == "c5".data) = true := by
    simp only [List.any_eq_true]
    exact ⟨_, h, by simp⟩
  simp [hany]

/-- Without `c5`, the first class present in the table decides the tag. -/
theorem spanReplacementTag_first (attr : List Char) (l1 l2 : List (List Char))
    (cl : List Char) (pr : String × String)
    (hno5 : "c5".data ∉ fieldsList attr)
    (hsplit : fieldsList attr = l1 ++ cl :: l2)
    (h1 : ∀ c' ∈ l1, classToTagList.find? (fun p => p.1.data == c') = none)
    (hcl : classToTagList.find? (fun p => p.1.data == cl) = some pr) :
    spanReplacementTag attr = some pr.2.data := by
  simp only [spanReplacementTag]
  have hany : (fieldsList attr).any (· == "c5".data) = false := by
    rw [← Bool.not_eq_true, List.any_eq_true]
    intro ⟨x, hx, hbeq⟩
    exact hno5 (by rwa [show x = "c5".data from by simpa using hbeq] at hx)
  rw [hany]
  simp only [Bool.false_eq_true, if_false, hsplit]
  exact findSome?_tag_append l1 l2 cl pr h1 hcl

/-- A class list with no table entry yields no tag (the span is unwrapped). -/
theorem spanReplacementTag_none (attr : List Char)
    (h : ∀ c' ∈ fieldsList attr, classToTagList.find? (fun p => p.1.data == c') = none) :
    spanReplacementTag attr = none := by
  unfold spanReplacementTag
  have hno5 : "c5".data ∉ fieldsList attr := by
    intro hmem
    exact absurd (h _ hmem) (by decide)
  have hany : (fieldsList attr).any (· == "c5".data) = false := by
    rw [← Bool.not_eq_true, List.any_eq_true]
    intro ⟨x, hx, hbeq⟩
    exact hno5 (by rwa [show x = "c5".data from by simpa using hbeq] at hx)
  simp only [hany, Bool.false_eq_true, if_false]
  exact findSome?_tag_none _ h

theorem matchEmptySpanAt_canonical (attrs ws : List Char)
    (hattrs : ∀ x ∈ attrs, x ≠ '>') (hws : ∀ x ∈ ws, isReSpace x = true) :
    matchEmptySpanAt (spanOpenLit ++ (attrs ++ '>' :: (ws ++ closeSpanLit))) =
      some (spanOpenLit.length + attrs.length + 1 + ws.length + closeSpanLit.length) := by
  have hfind : findSubIdx ['>'] (attrs ++ '>' :: (ws ++ closeSpanLit)) =
      some attrs.length := by
    rw [findSubIdx_skip '>' [] attrs _ hattrs]
    simp [findSubIdx, List.isPrefixOf]
  have hdrop : (spanOpenLit ++ (attrs ++ '>' :: (ws ++ closeSpanLit))).drop
      (spanOpenLit.length + attrs.length + 1) = ws ++ closeSpanLit := by
    rw [show spanOpenLit.length + attrs.length + 1 =
        spanOpenLit.length + (attrs.length + 1) from by omega, drop_length_add,
      drop_length_add attrs _ 1]
    rfl
  have hts : takeReSpaces (ws ++ closeSpanLit) = ws :=
    takeWhile_append_stop _ _ '<' _ hws rfl
  have hpre : closeSpanLit.isPrefixOf closeSpanLit = true := by
    have h := isPrefixOf_append_self closeSpanLit []
    rwa [List.append_nil] at h
  simp only [matchEmptySpanAt, isPrefixOf_append_self, if_true, List.drop_left, hfind,
    hdrop, hts, List.drop_left, hpre]

theorem emptySpanPassAux_whole (s : List Char) (n : Nat)
    (hm : matchEmptySpanAt s = some n) (hn : s.length ≤ n) (hs : s ≠ []) :
    emptySpanPassAux s.length s = [] := by
  cases s with
  | nil => exact absurd rfl hs
  | cons x xs =>
    simp only [List.length_cons, emptySpanPassAux, hm]
    have hdrop : (x :: xs).drop n = [] := by
      apply List.drop_eq_nil_of_le
      simpa using hn
    rw [hdrop, emptySpanPassAux_nil]

/-- A span of any attributes whose content is all whitespace is stripped
entirely by the empty-span pass. -/
theorem emptySpanPass_canonical (attrs ws : List Char)
    (hattrs : ∀ x ∈ attrs, x ≠ '>') (hws : ∀ x ∈ ws, isReSpace x = true) :
    emptySpanPass ⟨spanOpenLit ++ (attrs ++ '>' :: (ws ++ closeSpanLit))⟩ = "" := by
  have hm := matchEmptySpanAt_canonical attrs ws hattrs hws
  show String.mk (emptySpanPassAux _ _) = _
  rw [emptySpanPassAux_whole _ _ hm (by simp; omega) (by simp)]

/-! ### Claim C4 -/

/-- C4: for a span `<span class="ATTR">CONTENT</span>` (the canonical
character sequence below), the cleaner's span rewrite maps a class list
containing the distinguished bold class `c5` to `<strong>CONTENT</strong>`
— `c5` beating every other mapped class; without `c5` it wraps the content
in the tag of the first class (in class-list order) present in the fixed
class-to-tag table; when no class is in the table it unwraps the span,
keeping the bare content; and a span left with only whitespace inside is
stripped entirely by the subsequent empty-span pass. -/
theorem claimC4_span_class_mapping (attr content : List Char)
    (l1 l2 : List (List Char)) (cl : List Char) (pr : String × String)
    (attrs ws : List Char)
    (hne : attr ≠ []) (hq : ∀ x ∈ attr, x ≠ '"')
    (hc : ∀ x ∈ content, x ≠ '<' ∧ x ≠ '\n')
    (hattrs : ∀ x ∈ attrs, x ≠ '>') (hws : ∀ x ∈ ws, isReSpace x = true) :
    (("c5".data ∈ fieldsList attr) →
      spanPass ⟨spanOpenLit ++ ' ' :: (classEqLit ++ (attr ++ '"' :: '>' ::
        (content ++ closeSpanLit)))⟩ = ⟨spanWrap "strong".data content⟩) ∧
    (("c5".data ∉ fieldsList attr) → fieldsList attr = l1 ++ cl :: l2 →
      (∀ c' ∈ l1, classToTagList.find? (fun p => p.1.data == c') = none) →
      classToTagList.find? (fun p => p.1.data == cl) = some pr →
      spanPass ⟨spanOpenLit ++ ' ' :: (classEqLit ++ (attr ++ '"' :: '>' ::
        (content ++ closeSpanLit)))⟩ = ⟨spanWrap pr.2.data content⟩) ∧
    ((∀ c' ∈ fieldsList attr, classToTagList.find? (fun p => p.1.data == c') = none) →
      spanPass ⟨spanOpenLit ++ ' ' :: (classEqLit ++ (attr ++ '"' :: '>' ::
        (content ++ closeSpanLit)))⟩ = ⟨content⟩) ∧
    emptySpanPass ⟨spanOpenLit ++ (attrs ++ '>' :: (ws ++ closeSpanLit))⟩ = "" := by
  refine ⟨?_, ?_, ?_, emptySpanPass_canonical attrs ws hattrs hws⟩
  · intro h5
    rw [spanPass_canonical attr content hne hq hc, spanReplacementTag_c5 attr h5]
  · intro hno5 hsplit h1 hcl
    rw [spanPass_canonical attr content hne hq hc,
      spanReplacementTag_first attr l1 l2 cl pr hno5 hsplit h1 hcl]
  · intro hnone
    rw [spanPass_canonical attr content hne hq hc, spanReplacementTag_none attr hnone]

/-- C4 witness: concrete spans — `c6 c5` maps to `strong` (c5 priority),
`c9 c6 c3` maps to `code` (first table hit `c6`), `c9` unwraps, and
`<span>  </span>` is stripped. -/
theorem claimC4_witness :
    spanPass "<span class=\"c6 c5\">X</span>" = "<strong>X</strong>" ∧
    spanPass "<span class=\"c9 c6 c3\">X</span>" = "<code>X</code>" ∧
    spanPass "<span class=\"c9\">X</span>" = "X" ∧
    emptySpanPass "<span>  </span>" = "" := by
  refine ⟨?_, ?_, ?_, ?_⟩
  · exact (claimC4_span_class_mapping "c6 c5".data "X".data [] [] [] ("", "") [] []
      (by decide) (by decide) (by decide) (by decide) (by decide)).1 (by decide)
  · exact (claimC4_span_class_mapping "c9 c6 c3".data "X".data ["c9".data] ["c3".data]
      "c6".data ("c6", "code") [] [] (by decide) (by decide) (by decide) (by decide)
      (by decide)).2.1 (by decide) (by decide) (by decide) (by decide)
  · exact (claimC4_span_class_mapping "c9".data "X".data [] [] [] ("", "") [] []
      (by decide) (by decide) (by decide) (by decide) (by decide)).2.2.1 (by decide)
  · exact (claimC4_span_class_mapping "x".data "x".data [] [] [] ("", "") [] [' ', ' ']
      (by decide) (by decide) (by decide) (by decide) (by decide)).2.2.2

end VLP2SS

namespace VLP2SS

/-! ### Paragraph runs as structured data (claim C3)

A maximal run of consecutive paragraphs of one style class is modelled as a
list of paragraphs, each either text (`<p class="CLS">T</p>`) or image-only
(`<p class="CLS"><img src="SRC"></p>`); `Para.render` produces exactly the
character sequences above. -/

inductive Para where
  | text (t : List Char)
  | img (src : List Char)

/-- The characters between `>` and `</p>` of one rendered paragraph. -/
def Para.inner : Para → List Char
  | .text t => t
  | .img src => imgLit ++ ' ' :: (srcEqLit ++ (src ++ ['"', '>']))

/-- The rendered paragraph `<p class="CLS">…</p>`. -/
def Para.render (cls : List Char) (p : Para) : List Char :=
  pOpenLit ++ ' ' :: (classEqLit ++ (cls ++ '"' :: '>' :: (p.inner ++ closePLit)))

/-- A rendered run: the paragraphs concatenated (no separating text — the
run is maximal and consecutive). -/
def renderRun (cls : List Char) (run : List Para) : List Char :=
  (run.map (Para.render cls)).flatten

/-- Well-formedness of the embedded text: text carries no markup of its
own, image sources contain no quote or angle bracket. -/
def ParaWF : Para → Prop
  | .text t => ∀ x ∈ t, x ≠ '<'
  | .img src => ∀ x ∈ src, x ≠ '"' ∧ x ≠ '<' ∧ x ≠ '>'

/-- The paragraph carries visible text (after tag-stripping and trim). -/
def Para.isTextful : Para → Bool
  | .text t => !(trimSpaceList t).isEmpty
  | .img _ => false

def Para.isImg : Para → Bool
  | .text _ => false
  | .img _ => true

/-- The output the spec describes for one maximal run: one wrapper div
holding the textful paragraphs when any exist, followed by the image-only
paragraphs; paragraphs with neither text nor image are dropped; a run with
neither yields nothing. -/
def runExpected (cls style : List Char) (run : List Para) : List Char :=
  (if (run.filter Para.isTextful).isEmpty then []
   else
     "<div class=\"screensteps-styled-block\" data-style=\"".data ++ style ++
       "\">".data ++ ((run.filter Para.isTextful).map (Para.render cls)).flatten ++
       "</div>".data) ++
  ((run.filter Para.isImg).map (Para.render cls)).flatten

/-- Well-formedness of a style class name: a nonempty word (the table's
classes `c10`, `c44`, `c48` qualify). -/
def ClsWF (cls : List Char) : Prop :=
  cls ≠ [] ∧ ∀ x ∈ cls, wordChar x = true

theorem containsWord_self (w : List Char) : containsWord w w = true := by
  unfold containsWord
  rw [List.any_eq_true]
  refine ⟨0, List.mem_range.mpr (by omega), ?_⟩
  unfold containsWordAt
  have hpre : w.isPrefixOf (w.drop 0) = true := by
    have h2 := isPrefixOf_append_self w []
    rwa [List.append_nil] at h2
  simp [hpre]

theorem lastSubIdx_append_closeP (u : List Char) :
    lastSubIdx closePLit (u ++ closePLit) = some u.length := by
  induction u with
  | nil => decide
  | cons c cs ih => simp [lastSubIdx, ih]

end VLP2SS

namespace VLP2SS

theorem wordChar_ne_quote {x : Char} (h : wordChar x = true) : x ≠ '"' := by
  intro heq
  rw [heq] at h
  exact absurd h (by decide)

theorem inner_findCloseP (p : Para) (hw : ParaWF p) (rest : List Char) :
    findSubIdx closePLit (p.inner ++ (closePLit ++ rest)) = some p.inner.length := by
  cases p with
  | text t =>
    have h0 : closePLit = '<' :: "/p>".data := rfl
    show findSubIdx closePLit (t ++ (closePLit ++ rest)) = some t.length
    rw [h0, findSubIdx_skip '<' "/p>".data t _ (fun x hx => hw x hx),
      findSubIdx_self _ _ (by simp)]
    simp
  | img src =>
    have h0 : closePLit = '<' :: "/p>".data := rfl
    have himg : imgLit = '<' :: "img".data := rfl
    have hshape : Para.inner (.img src) ++ (closePLit ++ rest) =
        '<' :: (("img".data ++ ' ' :: (srcEqLit ++ (src ++ ['"', '>']))) ++
          (closePLit ++ rest)) := by
      simp [Para.inner, himg, List.append_assoc]
    rw [hshape]
    have hpre : closePLit.isPrefixOf ('<' :: (("img".data ++ ' ' :: (srcEqLit ++
        (src ++ ['"', '>']))) ++ (closePLit ++ rest))) = false := rfl
    rw [show closePLit = '<' :: "/p>".data from rfl] at hpre ⊢
    rw [findSubIdx_step _ _ _ hpre]
    have hl : ∀ x ∈ ("img".data ++ ' ' :: (srcEqLit ++ (src ++ ['"', '>']))), x ≠ '<' := by
      intro x hx
      rw [show "img".data = ['i', 'm', 'g'] from rfl,
        show srcEqLit = ['s', 'r', 'c', '=', '"'] from rfl] at hx
      simp only [List.mem_append, List.mem_cons, List.not_mem_nil, or_false] at hx
      rcases hx with (rfl | rfl | rfl | h) | rfl | (rfl | rfl | rfl | rfl | rfl) | hx2
      all_goals first
        | decide
        | (rcases hx2 with hsrc | rfl | rfl
           · exact (hw x hsrc).2.1
           · decide
           · decide)
    rw [findSubIdx_skip '<' "/p>".data _ _ hl, findSubIdx_self _ _ (by simp)]
    simp [Para.inner, himg, srcEqLit]

end VLP2SS

namespace VLP2SS

theorem takeNonQuote_cls (cls : List Char) (h : ∀ x ∈ cls, wordChar x = true)
    (r : List Char) : takeNonQuote (cls ++ '"' :: r) = cls :=
  takeNonQuote_append _ _ (fun x hx => wordChar_ne_quote (h x hx))

theorem matchStyledPAt_render (cls : List Char) (hcls : ClsWF cls) (p : Para)
    (hw : ParaWF p) (rest : List Char) (hrest : takeReSpaces rest = []) :
    matchStyledPAt cls (Para.render cls p ++ rest) =
      some ((Para.render cls p).length, Para.render cls p) := by
  have hshape : Para.render cls p ++ rest =
      pOpenLit ++ ' ' :: (classEqLit ++ (cls ++ '"' :: '>' ::
        (p.inner ++ (closePLit ++ rest)))) := by
    simp [Para.render, List.append_assoc]
  have hfind := inner_findCloseP p hw rest
  have hfind2 : findSubIdx closePLit ('>' :: (p.inner ++ (closePLit ++ rest))) =
      some (1 + p.inner.length) := by
    rw [show closePLit = '<' :: "/p>".data from rfl] at hfind ⊢
    rw [findSubIdx_step _ _ _ (by rfl), hfind]
    simp [Nat.add_comm]
  rw [hshape]
  simp only [matchStyledPAt, isPrefixOf_append_self, if_true, List.drop_left]
  have hsp : takeReSpaces (' ' :: (classEqLit ++ (cls ++ '"' :: '>' ::
      (p.inner ++ (closePLit ++ rest))))) = [' '] := rfl
  rw [hsp]
  simp only [List.isEmpty_cons, Bool.false_eq_true, if_false, List.length_cons,
    List.length_nil, List.drop_succ_cons, List.drop_zero, isPrefixOf_append_self,
    if_true, List.drop_left, takeNonQuote_cls cls hcls.2]
  simp only [containsWord_self, if_true, hfind2]
  have hSUM : pOpenLit.length + (0 + 1) + classEqLit.length + cls.length + 1 +
      (1 + p.inner.length) + closePLit.length = (Para.render cls p).length := by
    simp [Para.render]
    omega
  have hdropN : List.drop (pOpenLit.length + (0 + 1) + classEqLit.length + cls.length +
      1 + (1 + p.inner.length) + closePLit.length)
      (pOpenLit ++ ' ' :: (classEqLit ++ (cls ++ '"' :: '>' ::
        (p.inner ++ (closePLit ++ rest))))) = rest := by
    rw [← hshape, hSUM]
    exact List.drop_left _ _
  have htakeN : List.take (pOpenLit.length + (0 + 1) + classEqLit.length + cls.length +
      1 + (1 + p.inner.length) + closePLit.length)
      (pOpenLit ++ ' ' :: (classEqLit ++ (cls ++ '"' :: '>' ::
        (p.inner ++ (closePLit ++ rest))))) = Para.render cls p := by
    rw [← hshape, hSUM]
    exact List.take_left _ _
  rw [hdropN, htakeN, hrest]
  simp [hSUM]

end VLP2SS

namespace VLP2SS

theorem wordChar_ne_lt {x : Char} (h : wordChar x = true) : x ≠ '<' := by
  intro heq
  rw [heq] at h
  exact absurd h (by decide)

theorem wordChar_ne_gt {x : Char} (h : wordChar x = true) : x ≠ '>' := by
  intro heq
  rw [heq] at h
  exact absurd h (by decide)

theorem takeReSpaces_cons_false (c : Char) (t : List Char) (h : isReSpace c = false) :
    takeReSpaces (c :: t) = [] := by
  simp [takeReSpaces, List.takeWhile, h]

theorem takeReSpaces_renderRun (cls : List Char) (run : List Para) :
    takeReSpaces (renderRun cls run) = [] := by
  cases run with
  | nil => rfl
  | cons p ps =>
    have hshape : renderRun cls (p :: ps) =
        '<' :: (('p' :: ' ' :: (classEqLit ++ (cls ++ '"' :: '>' ::
          (p.inner ++ closePLit)))) ++ (ps.map (Para.render cls)).flatten) := by
      simp [renderRun, Para.render, pOpenLit]
    rw [hshape]
    exact takeReSpaces_cons_false _ _ (by decide)

theorem matchStyledRunAt_nilInput (cls : List Char) (fuel : Nat) :
    matchStyledRunAt cls fuel [] = none := by
  cases fuel with
  | zero => rfl
  | succ f => simp [matchStyledRunAt, matchStyledPAt, pOpenLit, List.isPrefixOf]

theorem matchStyledRunAt_render (cls : List Char) (hcls : ClsWF cls) (run : List Para)
    (hne : run ≠ []) (hwf : ∀ p ∈ run, ParaWF p) (fuel : Nat)
    (hfuel : run.length ≤ fuel) :
    matchStyledRunAt cls fuel (renderRun cls run) =
      some ((renderRun cls run).length, run.map (Para.render cls)) := by
  induction run generalizing fuel with
  | nil => exact absurd rfl hne
  | cons p ps ih =>
    cases fuel with
    | zero => simp at hfuel
    | succ f =>
      have hrest : takeReSpaces (renderRun cls ps) = [] := takeReSpaces_renderRun cls ps
      have hp := matchStyledPAt_render cls hcls p (hwf p (by simp)) (renderRun cls ps) hrest
      have hrr : renderRun cls (p :: ps) = Para.render cls p ++ renderRun cls ps := by
        simp [renderRun]
      rw [hrr]
      simp only [matchStyledRunAt, hp, List.drop_left]
      cases hps : ps with
      | nil =>
        simp [renderRun, matchStyledRunAt_nilInput]
      | cons q qs =>
        have ihr := ih (by simp [hps]) (fun x hx => hwf x (by simp [hx])) f
          (by rw [hps] at hfuel ⊢; simpa using Nat.le_of_succ_le_succ hfuel)
        rw [hps] at ihr
        rw [← hps] at ihr ⊢
        simp only [ihr]
        simp [renderRun]

end VLP2SS

namespace VLP2SS

theorem pTagInnerAt_render (cls : List Char) (hcls : ∀ x ∈ cls, wordChar x = true)
    (p : Para) : pTagInnerAt (Para.render cls p) = some p.inner := by
  have hshape : Para.render cls p =
      pOpenLit ++ ((' ' :: (classEqLit ++ (cls ++ ['"']))) ++
        ('>' :: (p.inner ++ closePLit))) := by
    simp [Para.render, List.append_assoc]
  have hl : ∀ x ∈ ' ' :: (classEqLit ++ (cls ++ ['"'])), x ≠ '>' := by
    intro x hx
    rw [show classEqLit = ['c','l','a','s','s','=','"'] from rfl] at hx
    simp only [List.mem_cons, List.mem_append, List.not_mem_nil, or_false] at hx
    rcases hx with rfl | (rfl|rfl|rfl|rfl|rfl|rfl|rfl) | hc | rfl
    all_goals first
      | decide
      | exact wordChar_ne_gt (hcls x hc)
  have hfind : findSubIdx ['>'] ((' ' :: (classEqLit ++ (cls ++ ['"']))) ++
      ('>' :: (p.inner ++ closePLit))) =
      some (' ' :: (classEqLit ++ (cls ++ ['"']))).length := by
    rw [findSubIdx_skip '>' [] _ _ hl,
      show ('>' :: (p.inner ++ closePLit)) = ['>'] ++ (p.inner ++ closePLit) from rfl,
      findSubIdx_self _ _ (by simp)]
    simp
  rw [hshape]
  simp only [pTagInnerAt, isPrefixOf_append_self, if_true, List.drop_left, hfind]
  have hdrop : (pOpenLit ++ ((' ' :: (classEqLit ++ (cls ++ ['"']))) ++
      ('>' :: (p.inner ++ closePLit)))).drop
      (pOpenLit.length + (' ' :: (classEqLit ++ (cls ++ ['"']))).length + 1) =
      p.inner ++ closePLit := by
    rw [Nat.add_assoc, drop_length_add]
    rw [show (' ' :: (classEqLit ++ (cls ++ ['"']))).length + 1 =
      (' ' :: (classEqLit ++ (cls ++ ['"']))).length + 1 from rfl]
    rw [drop_length_add]
    rfl
  rw [hdrop, lastSubIdx_append_closeP]
  simp [List.take_left]

theorem pTagInner_of_at (s : List Char) (r : List Char) (h : pTagInnerAt s = some r)
    (hs : s ≠ []) : pTagInner s = some r := by
  cases s with
  | nil => exact absurd rfl hs
  | cons c cs => simp [pTagInner, h]

theorem render_ne_nil (cls : List Char) (p : Para) : Para.render cls p ≠ [] := by
  simp [Para.render, pOpenLit]

theorem pTagInner_render (cls : List Char) (hcls : ∀ x ∈ cls, wordChar x = true)
    (p : Para) : pTagInner (Para.render cls p) = some p.inner :=
  pTagInner_of_at _ _ (pTagInnerAt_render cls hcls p) (render_ne_nil cls p)

theorem stripTagsAux_nilInput (fuel : Nat) : stripTagsAux fuel [] = [] := by
  cases fuel <;> rfl

theorem stripTagsAux_no_lt (fuel : Nat) (t : List Char) (hlen : t.length ≤ fuel)
    (h : ∀ x ∈ t, x ≠ '<') : stripTagsAux fuel t = t := by
  induction fuel generalizing t with
  | zero => rfl
  | succ f ih =>
    cases t with
    | nil => rfl
    | cons c cs =>
      have hc : c ≠ '<' := h c (by simp)
      simp only [stripTagsAux, if_neg hc]
      rw [ih cs (by simp at hlen; omega) (fun x hx => h x (by simp [hx]))]

theorem stripTagsList_text (t : List Char) (h : ∀ x ∈ t, x ≠ '<') :
    stripTagsList t = t := stripTagsAux_no_lt _ _ le_rfl h

theorem stripTagsAux_tag (fuel : Nat) (u rest2 : List Char)
    (hu : ∀ x ∈ u, x ≠ '>') (hne : u ≠ []) :
    stripTagsAux (fuel + 1) ('<' :: (u ++ '>' :: rest2)) = stripTagsAux fuel rest2 := by
  have hrun : (u ++ '>' :: rest2).takeWhile (· ≠ '>') = u :=
    takeWhile_append_stop _ _ _ _ (fun x hx => by simp [hu x hx]) (by simp)
  simp only [stripTagsAux, if_pos rfl, hrun, isEmpty_false_of_ne_nil hne,
    Bool.false_eq_true, if_false, List.drop_left]
  simp

theorem stripTagsList_imgInner (src : List Char)
    (hw : ∀ x ∈ src, x ≠ '"' ∧ x ≠ '<' ∧ x ≠ '>') :
    stripTagsList (Para.inner (.img src)) = [] := by
  have hshape : Para.inner (.img src) =
      '<' :: (("img".data ++ ' ' :: (srcEqLit ++ (src ++ ['"']))) ++ '>' :: []) := by
    simp [Para.inner, show imgLit = '<' :: "img".data from rfl,
      show srcEqLit = ['s','r','c','=','"'] from rfl, List.append_assoc]
  have hu : ∀ x ∈ ("img".data ++ ' ' :: (srcEqLit ++ (src ++ ['"']))), x ≠ '>' := by
    intro x hx
    rw [show "img".data = ['i','m','g'] from rfl,
      show srcEqLit = ['s','r','c','=','"'] from rfl] at hx
    simp only [List.mem_append, List.mem_cons, List.not_mem_nil, or_false] at hx
    rcases hx with (rfl|rfl|rfl) | rfl | (rfl|rfl|rfl|rfl|rfl) | hs | rfl
    all_goals first
      | decide
      | exact (hw x hs).2.2
  rw [stripTagsList, hshape]
  have hlen : ('<' :: (("img".data ++ ' ' :: (srcEqLit ++ (src ++ ['"']))) ++
      '>' :: [])).length =
      (("img".data ++ ' ' :: (srcEqLit ++ (src ++ ['"'])))).length + 1 + 1 := by
    simp
    omega
  rw [hlen, stripTagsAux_tag _ _ _ hu (by simp), stripTagsAux_nilInput]

end VLP2SS

namespace VLP2SS

theorem findSubIdx_isSome_append (pat l r : List Char) (hp : pat ≠ []) :
    (findSubIdx pat (l ++ (pat ++ r))).isSome = true := by
  induction l with
  | nil => rw [List.nil_append, findSubIdx_self pat r hp]; rfl
  | cons c cs ih =>
    rw [List.cons_append]
    cases hpre : pat.isPrefixOf (c :: (cs ++ (pat ++ r))) with
    | false =>
      rw [findSubIdx_step _ _ _ hpre]
      cases h2 : findSubIdx pat (cs ++ (pat ++ r)) with
      | none => rw [h2] at ih; exact absurd ih (by simp)
      | some k => simp
    | true => simp [findSubIdx, hpre]

theorem containsSub_img_render (cls : List Char) (src : List Char) :
    containsSub imgLit (Para.render cls (.img src)) = true := by
  have hshape : Para.render cls (.img src) =
      (pOpenLit ++ ' ' :: (classEqLit ++ (cls ++ ['"', '>']))) ++
        (imgLit ++ (' ' :: (srcEqLit ++ (src ++ ['"', '>'])) ++ closePLit)) := by
    simp [Para.render, Para.inner, List.append_assoc]
  rw [containsSub, hshape]
  exact findSubIdx_isSome_append _ _ _ (by decide)

theorem containsSub_img_text (cls : List Char) (hcls : ∀ x ∈ cls, wordChar x = true)
    (t : List Char) (ht : ∀ x ∈ t, x ≠ '<') :
    containsSub imgLit (Para.render cls (.text t)) = false := by
  have hshape : Para.render cls (.text t) =
      '<' :: 'p' :: ((' ' :: (classEqLit ++ (cls ++ '"' :: '>' :: t))) ++ closePLit) := by
    simp [Para.render, Para.inner, pOpenLit, List.append_assoc]
  have hl : ∀ x ∈ ' ' :: (classEqLit ++ (cls ++ '"' :: '>' :: t)), x ≠ '<' := by
    intro x hx
    rw [show classEqLit = ['c','l','a','s','s','=','"'] from rfl] at hx
    simp only [List.mem_cons, List.mem_append, List.not_mem_nil, or_false] at hx
    rcases hx with rfl | (rfl|rfl|rfl|rfl|rfl|rfl|rfl) | hc | rfl | rfl | hmt
    all_goals first
      | decide
      | exact wordChar_ne_lt (hcls x hc)
      | exact ht x hmt
  have hcp : findSubIdx imgLit closePLit = none := by decide
  have h1 : imgLit.isPrefixOf ('<' :: 'p' :: ((' ' :: (classEqLit ++
      (cls ++ '"' :: '>' :: t))) ++ closePLit)) = false := by
    simp [imgLit, List.isPrefixOf]
  have h2 : imgLit.isPrefixOf ('p' :: ((' ' :: (classEqLit ++
      (cls ++ '"' :: '>' :: t))) ++ closePLit)) = false := by
    simp [imgLit, List.isPrefixOf]
  rw [containsSub, hshape, findSubIdx_step _ _ _ h1, findSubIdx_step _ _ _ h2,
    show imgLit = '<' :: "img".data from rfl,
    findSubIdx_skip '<' "img".data _ _ hl]
  rw [show '<' :: "img".data = imgLit from rfl, hcp]
  rfl

/-- The `contentTags` filter predicate of `styledBlockReplacement` agrees with
`Para.isTextful` on rendered paragraphs. -/
theorem contentPred_render (cls : List Char) (hcls : ∀ x ∈ cls, wordChar x = true)
    (p : Para) (hw : ParaWF p) :
    (match pTagInner (Para.render cls p) with
     | some inner => !(trimSpaceList (stripTagsList inner)).isEmpty
     | none => false) = Para.isTextful p := by
  rw [pTagInner_render cls hcls p]
  cases p with
  | text t =>
    show (!(trimSpaceList (stripTagsList t)).isEmpty) = Para.isTextful (.text t)
    rw [stripTagsList_text t hw]
    rfl
  | img src =>
    show (!(trimSpaceList (stripTagsList (Para.inner (.img src)))).isEmpty) =
      Para.isTextful (.img src)
    rw [stripTagsList_imgInner src hw]
    rfl

/-- The `imageTags` filter predicate of `styledBlockReplacement` agrees with
`Para.isImg` on rendered paragraphs. -/
theorem imgPred_render (cls : List Char) (hcls : ∀ x ∈ cls, wordChar x = true)
    (p : Para) (hw : ParaWF p) :
    (match pTagInner (Para.render cls p) with
     | some inner =>
       (trimSpaceList (stripTagsList inner)).isEmpty &&
         containsSub imgLit (Para.render cls p)
     | none => false) = Para.isImg p := by
  rw [pTagInner_render cls hcls p]
  cases p with
  | text t =>
    show ((trimSpaceList (stripTagsList t)).isEmpty &&
        containsSub imgLit (Para.render cls (.text t))) = Para.isImg (.text t)
    rw [stripTagsList_text t hw, containsSub_img_text cls hcls t hw]
    simp [Para.isImg]
  | img src =>
    show ((trimSpaceList (stripTagsList (Para.inner (.img src)))).isEmpty &&
        containsSub imgLit (Para.render cls (.img src))) = Para.isImg (.img src)
    rw [stripTagsList_imgInner src hw, containsSub_img_render cls src]
    rfl

end VLP2SS

namespace VLP2SS

theorem styledBlockReplacement_render (cls style : List Char)
    (hcls : ∀ x ∈ cls, wordChar x = true) (run : List Para)
    (hwf : ∀ p ∈ run, ParaWF p) :
    styledBlockReplacement style (run.map (Para.render cls)) =
      runExpected cls style run := by
  have h1 : (run.map (Para.render cls)).filter (fun tag =>
      match pTagInner tag with
      | some inner => !(trimSpaceList (stripTagsList inner)).isEmpty
      | none => false) = (run.filter Para.isTextful).map (Para.render cls) := by
    rw [List.filter_map]
    congr 1
    apply List.filter_congr
    intro p hp
    simp only [Function.comp]
    exact contentPred_render cls hcls p (hwf p hp)
  have h2 : (run.map (Para.render cls)).filter (fun tag =>
      match pTagInner tag with
      | some inner =>
        (trimSpaceList (stripTagsList inner)).isEmpty && containsSub "<img".data tag
      | none => false) = (run.filter Para.isImg).map (Para.render cls) := by
    rw [List.filter_map]
    congr 1
    apply List.filter_congr
    intro p hp
    simp only [Function.comp]
    exact imgPred_render cls hcls p (hwf p hp)
  have hie : ((run.filter Para.isTextful).map (Para.render cls)).isEmpty =
      (run.filter Para.isTextful).isEmpty := by
    cases run.filter Para.isTextful <;> rfl
  simp only [styledBlockReplacement, runExpected, h1, h2, hie]

theorem renderRun_length_ge (cls : List Char) (run : List Para) :
    run.length ≤ (renderRun cls run).length := by
  induction run with
  | nil => simp [renderRun]
  | cons p ps ih =>
    have : renderRun cls (p :: ps) = Para.render cls p ++ renderRun cls ps := by
      simp [renderRun]
    rw [this]
    simp only [List.length_cons, List.length_append]
    have hr : 1 ≤ (Para.render cls p).length := by
      simp [Para.render, pOpenLit]
    omega

theorem renderRun_ne_nil (cls : List Char) (run : List Para) (hne : run ≠ []) :
    renderRun cls run ≠ [] := by
  cases run with
  | nil => exact absurd rfl hne
  | cons p ps =>
    have : renderRun cls (p :: ps) = Para.render cls p ++ renderRun cls ps := by
      simp [renderRun]
    rw [this]
    simp [Para.render, pOpenLit]

theorem paragraphStylePassAux_nilInput (cls style : List Char) (fuel : Nat) :
    paragraphStylePassAux cls style fuel [] = [] := by
  cases fuel <;> rfl

theorem paragraphStylePassAux_whole (cls style s : List Char)
    (tags : List (List Char)) (hs : s ≠ [])
    (hm : matchStyledRunAt cls s.length s = some (s.length, tags)) :
    paragraphStylePassAux cls style s.length s = styledBlockReplacement style tags := by
  cases s with
  | nil => exact absurd rfl hs
  | cons c rest =>
    have hm2 : matchStyledRunAt cls (rest.length + 1) (c :: rest) =
        some (rest.length + 1, tags) := by simpa using hm
    simp only [List.length_cons, paragraphStylePassAux, hm2]
    have hdrop : (c :: rest).drop (rest.length + 1) = [] := by
      apply List.drop_eq_nil_of_le
      simp
    rw [hdrop, paragraphStylePassAux_nilInput, List.append_nil]

theorem paragraphStylePass_run (cls style : List Char) (hcls : ClsWF cls)
    (run : List Para) (hne : run ≠ []) (hwf : ∀ p ∈ run, ParaWF p) :
    paragraphStylePassAux cls style (renderRun cls run).length (renderRun cls run) =
      runExpected cls style run := by
  have hm := matchStyledRunAt_render cls hcls run hne hwf
    (renderRun cls run).length (renderRun_length_ge cls run)
  rw [paragraphStylePassAux_whole cls style _ _ (renderRun_ne_nil cls run hne) hm]
  exact styledBlockReplacement_render cls style hcls.2 run hwf

instance (p : Para) : Decidable (ParaWF p) :=
  match p with
  | .text t => inferInstanceAs (Decidable (∀ x ∈ t, x ≠ '<'))
  | .img src => inferInstanceAs (Decidable (∀ x ∈ src, x ≠ '"' ∧ x ≠ '<' ∧ x ≠ '>'))

/-- C3 (amended): for every class in the paragraph-style table and every
nonempty maximal run of well-formed consecutive paragraphs of that class,
the pass rewrites the run to: one styled-block wrapper div (tagged with the
resolved style) holding exactly the paragraphs with non-empty text, when any
exist — and NO wrapper at all otherwise — followed by the image-only
paragraphs of the run, in order. -/
theorem claimC3_styled_block_grouping (cls style : String)
    (hmem : (cls, style) ∈ pClassToStyleList) (run : List Para)
    (hne : run ≠ []) (hwf : ∀ p ∈ run, ParaWF p) :
    paragraphStylePass cls style ⟨renderRun cls.data run⟩ =
      ⟨runExpected cls.data style.data run⟩ := by
  have hcls : ClsWF cls.data := by
    simp only [pClassToStyleList, List.mem_cons, List.not_mem_nil, or_false,
      Prod.mk.injEq] at hmem
    rcases hmem with ⟨h1, h2⟩ | ⟨h1, h2⟩ | ⟨h1, h2⟩ <;> subst h1 <;>
      exact ⟨by decide, by decide⟩
  exact congrArg String.mk (paragraphStylePass_run cls.data style.data hcls run hne hwf)

/-- C3 counterexample: a maximal run consisting of a single image-only
`c48` paragraph is left completely unchanged by the pass — no styled-block
wrapper div is produced for it, contrary to the claim that every maximal
run collapses into exactly one wrapper div. -/
theorem claimC3_counterexample :
    ("c48", "info") ∈ pClassToStyleList ∧
    paragraphStylePass "c48" "info" "<p class=\"c48\"><img src=\"i.png\"></p>" =
      "<p class=\"c48\"><img src=\"i.png\"></p>" ∧
    containsSub "screensteps-styled-block".data
      (paragraphStylePass "c48" "info"
        "<p class=\"c48\"><img src=\"i.png\"></p>").data = false := by
  refine ⟨by decide, ?_, ?_⟩ <;> decide

theorem claimC3_witness :
    paragraphStylePass "c48" "info"
        ⟨renderRun "c48".data [Para.text "Hi".data, Para.img "x.png".data]⟩ =
      ⟨runExpected "c48".data "info".data
        [Para.text "Hi".data, Para.img "x.png".data]⟩ :=
  claimC3_styled_block_grouping "c48" "info" (by decide) _
    (List.cons_ne_nil _ _) (by decide)

end VLP2SS

namespace VLP2SS

set_option maxRecDepth 10000 in
/-- C2: the HTML rewriting is NOT a deterministic function of the input:
`convertVLPParagraphStyles` iterates the Go map `pClassToStyleMap`, whose
iteration order Go randomizes per run.  Two legal iteration orders of the
same map (both permutations of the same three entries) produce different
`cleanHTML` outputs on a paragraph carrying two mapped classes, so two runs
of the conversion on identical source input can emit different JSON. -/
theorem claimC2_output_depends_on_map_order :
    List.Perm pClassToStyleList
      [("c48", "info"), ("c10", "introduction"), ("c44", "introduction")] ∧
    cleanHTML pClassToStyleList "<p class=\"c10 c48\">X</p>" ≠
      cleanHTML [("c48", "info"), ("c10", "introduction"), ("c44", "introduction")]
        "<p class=\"c10 c48\">X</p>" := by
  constructor
  · decide
  · decide

end VLP2SS

namespace VLP2SS

/-! ### C5: the YouTube embed conversion -/

/-- The canonical recognized block with a `data-media-id` attribute:
`<div class="mediatag-thumb youtube-thumb" data-media-id="ID">X</div>`. -/
def ytCanonical1 (id x : List Char) : List Char :=
  divOpenLit ++ ' ' :: (classEqLit ++ (ytClassLit ++ '"' :: ' ' ::
    (mediaIdLit ++ (id ++ '"' :: '>' :: (x ++ closeDivLit)))))

/-- The canonical recognized block with only a `data-thumb-url` attribute:
`<div class="mediatag-thumb youtube-thumb"
data-thumb-url="https://img.youtube.com/vi/ID/0.jpg">X</div>`. -/
def ytCanonical2 (id x : List Char) : List Char :=
  divOpenLit ++ ' ' :: (classEqLit ++ (ytClassLit ++ '"' :: ' ' ::
    (thumbUrlLit ++ ("https://img.".data ++ (ytViLit ++ (id ++ '/' ::
      ("0.jpg".data ++ '"' :: '>' :: (x ++ closeDivLit))))))))

theorem alnum_ne (c : Char) (h : isAlnumChar c = true) (d : Char)
    (hd : isAlnumChar d = false) : c ≠ d := by
  intro he
  rw [he] at h
  exact absurd h (by simp [hd])

theorem not_prefix_alnum_sep (pat : List Char) (c0 : Char) (j : Nat)
    (hj : j < pat.length) (hja : isAlnumChar (pat.getD j ' ') = false)
    (hsep : ∀ i, i ≤ j → pat.getD i ' ' ≠ c0)
    (l : List Char) (hl : ∀ x ∈ l, isAlnumChar x = true) (r : List Char) :
    pat.isPrefixOf (l ++ c0 :: r) = false := by
  by_contra hb
  rw [Bool.not_eq_false, List.isPrefixOf_iff_prefix] at hb
  obtain ⟨t, ht⟩ := hb
  rcases le_or_lt l.length j with hlen | hlen
  · have hk : l.length < pat.length := Nat.lt_of_le_of_lt hlen hj
    have h1 : (pat ++ t).getD l.length ' ' = pat.getD l.length ' ' :=
      List.getD_append _ _ _ _ hk
    have h2 : (l ++ c0 :: r).getD l.length ' ' = c0 := by
      rw [List.getD_append_right _ _ _ _ le_rfl]
      simp
    rw [ht, h2] at h1
    exact hsep l.length hlen h1.symm
  · have h1 : (pat ++ t).getD j ' ' = pat.getD j ' ' := List.getD_append _ _ _ _ hj
    have h2 : (l ++ c0 :: r).getD j ' ' = l.getD j ' ' := List.getD_append _ _ _ _ hlen
    rw [ht, h2] at h1
    have hmem : l.getD j ' ' ∈ l := by
      rw [List.getD_eq_getElem l ' ' hlen]
      exact List.getElem_mem hlen
    have := hl _ hmem
    rw [h1] at this
    rw [this] at hja
    exact absurd hja (by simp)

theorem starLit_cons_hit (allowed : Char → Bool) (pat : List Char) (c : Char)
    (rest : List Char) (ha : allowed c = true)
    (hp : pat.isPrefixOf (c :: rest) = true) :
    starLitCandidates allowed pat (c :: rest) =
      0 :: (starLitCandidates allowed pat rest).map (· + 1) := by
  simp [starLitCandidates, hp, ha]

theorem starLit_append_free (allowed : Char → Bool) (pat : List Char)
    (l r : List Char) (hallow : ∀ c ∈ l, allowed c = true)
    (hfree : ∀ t, t <:+ l → t ≠ [] → pat.isPrefixOf (t ++ r) = false) :
    starLitCandidates allowed pat (l ++ r) =
      (starLitCandidates allowed pat r).map (· + l.length) := by
  induction l with
  | nil => simp
  | cons c cs ih =>
    rw [List.cons_append]
    have hpre : pat.isPrefixOf (c :: (cs ++ r)) = false := by
      have := hfree (c :: cs) (List.suffix_refl _) (List.cons_ne_nil _ _)
      rwa [List.cons_append] at this
    have hstep : starLitCandidates allowed pat (c :: (cs ++ r)) =
        (starLitCandidates allowed pat (cs ++ r)).map (· + 1) := by
      simp [starLitCandidates, hpre, hallow c (List.mem_cons_self _ _)]
    rw [hstep, ih (fun x hx => hallow x (List.mem_cons_of_mem _ hx))
      (fun t hsuf hne => hfree t (hsuf.trans (List.suffix_cons _ _)) hne)]
    simp only [List.map_map, List.length_cons]
    apply List.map_congr_left
    intro a _
    simp [Function.comp]
    omega

theorem starLit_stop2 (allowed : Char → Bool) (pat : List Char) (c1 c2 : Char)
    (rest : List Char) (ha1 : allowed c1 = true) (ha2 : allowed c2 = false)
    (hp1 : pat.isPrefixOf (c1 :: c2 :: rest) = false)
    (hp2 : pat.isPrefixOf (c2 :: rest) = false) :
    starLitCandidates allowed pat (c1 :: c2 :: rest) = [] := by
  simp [starLitCandidates, hp1, hp2, ha1, ha2]

theorem starLit_stop1 (allowed : Char → Bool) (pat : List Char) (c : Char)
    (rest : List Char) (ha : allowed c = false)
    (hp : pat.isPrefixOf (c :: rest) = false) :
    starLitCandidates allowed pat (c :: rest) = [] := by
  simp [starLitCandidates, hp, ha]

end VLP2SS

namespace VLP2SS

theorem starLit_cons_no (allowed : Char → Bool) (pat : List Char) (c : Char)
    (rest : List Char) (ha : allowed c = true)
    (hp : pat.isPrefixOf (c :: rest) = false) :
    starLitCandidates allowed pat (c :: rest) =
      (starLitCandidates allowed pat rest).map (· + 1) := by
  simp [starLitCandidates, hp, ha]

theorem classEq_not_prefix_alnum (l : List Char) (hl : ∀ x ∈ l, isAlnumChar x = true)
    (r : List Char) : classEqLit.isPrefixOf (l ++ '"' :: r) = false :=
  not_prefix_alnum_sep classEqLit '"' 5 (by decide) (by decide)
    (by intro i hi; interval_cases i <;> decide) l hl r

theorem mediaId_not_prefix_alnum (l : List Char) (hl : ∀ x ∈ l, isAlnumChar x = true)
    (r : List Char) : mediaIdLit.isPrefixOf (l ++ '"' :: r) = false :=
  not_prefix_alnum_sep mediaIdLit '"' 4 (by decide) (by decide)
    (by intro i hi; interval_cases i <;> decide) l hl r

theorem thumbUrl_not_prefix_alnum (l : List Char) (hl : ∀ x ∈ l, isAlnumChar x = true)
    (r : List Char) : thumbUrlLit.isPrefixOf (l ++ '"' :: r) = false :=
  not_prefix_alnum_sep thumbUrlLit '"' 4 (by decide) (by decide)
    (by intro i hi; interval_cases i <;> decide) l hl r

theorem ytVi_not_prefix_alnum (l : List Char) (hl : ∀ x ∈ l, isAlnumChar x = true)
    (r : List Char) : ytViLit.isPrefixOf (l ++ '/' :: r) = false :=
  not_prefix_alnum_sep ytViLit '/' 7 (by decide) (by decide)
    (by intro i hi; interval_cases i <;> decide) l hl r

theorem alnum_allowed_gt (c : Char) (h : isAlnumChar c = true) :
    (decide (c ≠ '>')) = true := by
  simp
  exact alnum_ne c h '>' (by decide)

theorem alnum_allowed_quote (c : Char) (h : isAlnumChar c = true) :
    (decide (c ≠ '"')) = true := by
  simp
  exact alnum_ne c h '"' (by decide)

theorem ytStarA (id : List Char) (hid : ∀ c ∈ id, isAlnumChar c = true)
    (rest : List Char) :
    starLitCandidates (· ≠ '>') classEqLit
      (' ' :: (classEqLit ++ (ytClassLit ++ '"' :: ' ' ::
        (mediaIdLit ++ (id ++ '"' :: '>' :: rest))))) = [1] := by
  rw [starLit_cons_no _ _ _ _ (by decide) (by rfl)]
  rw [show classEqLit ++ (ytClassLit ++ '"' :: ' ' ::
      (mediaIdLit ++ (id ++ '"' :: '>' :: rest))) =
    'c' :: ("lass=\"".data ++ (ytClassLit ++ '"' :: ' ' ::
      (mediaIdLit ++ (id ++ '"' :: '>' :: rest)))) from rfl]
  rw [starLit_cons_hit _ _ _ _ (by decide) (by
    rw [show 'c' :: ("lass=\"".data ++ (ytClassLit ++ '"' :: ' ' ::
        (mediaIdLit ++ (id ++ '"' :: '>' :: rest)))) =
      classEqLit ++ (ytClassLit ++ '"' :: ' ' ::
        (mediaIdLit ++ (id ++ '"' :: '>' :: rest))) from rfl]
    exact isPrefixOf_append_self _ _)]
  rw [show "lass=\"".data ++ (ytClassLit ++ '"' :: ' ' ::
      (mediaIdLit ++ (id ++ '"' :: '>' :: rest))) =
    "lass=\"mediatag-thumb youtube-thumb\" data-media-id=\"".data ++
      (id ++ '"' :: '>' :: rest) from rfl]
  rw [starLit_append_free _ _ _ _ (by decide) (by
    intro t hsuf hne
    rw [← List.mem_tails] at hsuf
    fin_cases hsuf <;>
      first
        | exact absurd rfl hne
        | simp [List.isPrefixOf, classEqLit])]
  rw [starLit_append_free _ _ _ _ (fun c hc => alnum_allowed_gt c (hid c hc)) (by
    intro t hsuf hne
    cases t with
    | nil => exact absurd rfl hne
    | cons a as =>
      exact classEq_not_prefix_alnum (a :: as)
        (fun y hy => hid y (hsuf.subset hy)) ('>' :: rest))]
  rw [starLit_stop2 _ _ _ _ _ (by decide) (by decide) (by rfl) (by rfl)]
  rfl

end VLP2SS

namespace VLP2SS

theorem ytStarB (rest : List Char) :
    starLitCandidates (· ≠ '"') ytClassLit (ytClassLit ++ '"' :: rest) = [0] := by
  rw [show ytClassLit ++ '"' :: rest =
    'm' :: ("ediatag-thumb youtube-thumb".data ++ '"' :: rest) from rfl]
  rw [starLit_cons_hit _ _ _ _ (by decide) (by
    rw [show 'm' :: ("ediatag-thumb youtube-thumb".data ++ '"' :: rest) =
      ytClassLit ++ ('"' :: rest) from rfl]
    exact isPrefixOf_append_self _ _)]
  rw [starLit_append_free _ _ _ _ (by decide) (by
    intro t hsuf hne
    rw [← List.mem_tails] at hsuf
    fin_cases hsuf <;>
      first
        | exact absurd rfl hne
        | simp [List.isPrefixOf, ytClassLit])]
  rw [starLit_stop1 _ _ _ _ (by decide) (by rfl)]
  rfl

theorem ytStarC (id : List Char) (hid : ∀ c ∈ id, isAlnumChar c = true)
    (rest : List Char) :
    starLitCandidates (· ≠ '>') mediaIdLit
      (' ' :: (mediaIdLit ++ (id ++ '"' :: '>' :: rest))) = [1] := by
  rw [starLit_cons_no _ _ _ _ (by decide) (by rfl)]
  rw [show mediaIdLit ++ (id ++ '"' :: '>' :: rest) =
    'd' :: ("ata-media-id=\"".data ++ (id ++ '"' :: '>' :: rest)) from rfl]
  rw [starLit_cons_hit _ _ _ _ (by decide) (by
    rw [show 'd' :: ("ata-media-id=\"".data ++ (id ++ '"' :: '>' :: rest)) =
      mediaIdLit ++ (id ++ '"' :: '>' :: rest) from rfl]
    exact isPrefixOf_append_self _ _)]
  rw [starLit_append_free _ _ _ _ (by decide) (by
    intro t hsuf hne
    rw [← List.mem_tails] at hsuf
    fin_cases hsuf <;>
      first
        | exact absurd rfl hne
        | simp [List.isPrefixOf, mediaIdLit])]
  rw [starLit_append_free _ _ _ _ (fun c hc => alnum_allowed_gt c (hid c hc)) (by
    intro t hsuf hne
    cases t with
    | nil => exact absurd rfl hne
    | cons a as =>
      exact mediaId_not_prefix_alnum (a :: as)
        (fun y hy => hid y (hsuf.subset hy)) ('>' :: rest))]
  rw [starLit_stop2 _ _ _ _ _ (by decide) (by decide) (by rfl) (by rfl)]
  rfl

theorem matchYt1At_canonical (id x : List Char) (hne : id ≠ [])
    (hid : ∀ c ∈ id, isAlnumChar c = true) (hx : ∀ c ∈ x, c ≠ '<' ∧ c ≠ '\n') :
    matchYt1At (ytCanonical1 id x) = some ((ytCanonical1 id x).length, id) := by
  have hA := ytStarA id hid (x ++ closeDivLit)
  have hB := ytStarB (' ' :: (mediaIdLit ++ (id ++ '"' :: '>' :: (x ++ closeDivLit))))
  have hC := ytStarC id hid (x ++ closeDivLit)
  have hQ2 : findSubIdx ['"'] (id ++ '"' :: '>' :: (x ++ closeDivLit)) =
      some id.length := by
    rw [findSubIdx_skip '"' [] id _ (fun c hc => alnum_ne c (hid c hc) '"' (by decide))]
    rw [show findSubIdx ['"'] ('"' :: '>' :: (x ++ closeDivLit)) = some 0 from rfl]
    simp
  have hJ : findSubIdxNoNL closeDivLit (x ++ closeDivLit) = some x.length := by
    have hself := findSubIdxNoNL_self closeDivLit [] (by decide)
    rw [List.append_nil] at hself
    rw [show closeDivLit = '<' :: "/div>".data from rfl] at hself ⊢
    rw [findSubIdxNoNL_skip '<' "/div>".data x _ (fun c hc => hx c hc), hself]
    simp [Nat.add_comm]
  simp only [ytCanonical1, matchYt1At, isPrefixOf_append_self, if_true, List.drop_left]
  rw [hA]
  simp only [List.reverse_cons, List.reverse_nil, List.nil_append, List.findSome?_cons]
  rw [show (' ' :: (classEqLit ++ (ytClassLit ++ '"' :: ' ' ::
      (mediaIdLit ++ (id ++ '"' :: '>' :: (x ++ closeDivLit)))))).drop
      (1 + classEqLit.length) =
    ytClassLit ++ '"' :: ' ' :: (mediaIdLit ++ (id ++ '"' :: '>' ::
      (x ++ closeDivLit))) from rfl]
  rw [hB]
  simp only [List.reverse_cons, List.reverse_nil, List.nil_append, List.findSome?_cons]
  rw [show (ytClassLit ++ '"' :: ' ' :: (mediaIdLit ++ (id ++ '"' :: '>' ::
      (x ++ closeDivLit)))).drop (0 + ytClassLit.length) =
    '"' :: ' ' :: (mediaIdLit ++ (id ++ '"' :: '>' :: (x ++ closeDivLit))) from rfl]
  rw [show findSubIdx ['"'] ('"' :: ' ' :: (mediaIdLit ++ (id ++ '"' :: '>' ::
      (x ++ closeDivLit)))) = some 0 from rfl]
  dsimp only
  rw [show ('"' :: ' ' :: (mediaIdLit ++ (id ++ '"' :: '>' ::
      (x ++ closeDivLit)))).drop (0 + 1) =
    ' ' :: (mediaIdLit ++ (id ++ '"' :: '>' :: (x ++ closeDivLit))) from rfl]
  rw [hC]
  simp only [List.reverse_cons, List.reverse_nil, List.nil_append, List.findSome?_cons]
  rw [show (' ' :: (mediaIdLit ++ (id ++ '"' :: '>' ::
      (x ++ closeDivLit)))).drop (1 + mediaIdLit.length) =
    id ++ '"' :: '>' :: (x ++ closeDivLit) from rfl]
  rw [hQ2]
  dsimp only
  rw [if_neg (fun h => hne (List.length_eq_zero.mp h))]
  rw [drop_length_add id ('"' :: '>' :: (x ++ closeDivLit)) 1]
  rw [show ('"' :: '>' :: (x ++ closeDivLit)).drop 1 = '>' :: (x ++ closeDivLit) from rfl]
  have h7 : findSubIdx ['>'] ('>' :: (x ++ closeDivLit)) = some 0 := by
    rw [show ('>' :: (x ++ closeDivLit)) = ['>'] ++ (x ++ closeDivLit) from rfl]
    exact findSubIdx_self _ _ (by decide)
  rw [h7]
  dsimp only
  rw [show ('>' :: (x ++ closeDivLit)).drop (0 + 1) = x ++ closeDivLit from rfl]
  rw [hJ]
  simp only [Option.map_some']
  rw [List.take_left]
  have hlen : divOpenLit.length + 1 + classEqLit.length + 0 + ytClassLit.length +
      0 + 1 + 1 + mediaIdLit.length + id.length + 1 + 0 + 1 + x.length +
      closeDivLit.length =
      (divOpenLit ++ ' ' :: (classEqLit ++ (ytClassLit ++ '"' :: ' ' ::
        (mediaIdLit ++ (id ++ '"' :: '>' :: (x ++ closeDivLit)))))).length := by
    simp
    omega
  rw [hlen]

end VLP2SS

namespace VLP2SS

theorem classEq_not_prefix_alnum_slash (l : List Char)
    (hl : ∀ x ∈ l, isAlnumChar x = true) (r : List Char) :
    classEqLit.isPrefixOf (l ++ '/' :: r) = false :=
  not_prefix_alnum_sep classEqLit '/' 5 (by decide) (by decide)
    (by intro i hi; interval_cases i <;> decide) l hl r

theorem thumbUrl_not_prefix_alnum_slash (l : List Char)
    (hl : ∀ x ∈ l, isAlnumChar x = true) (r : List Char) :
    thumbUrlLit.isPrefixOf (l ++ '/' :: r) = false :=
  not_prefix_alnum_sep thumbUrlLit '/' 4 (by decide) (by decide)
    (by intro i hi; interval_cases i <;> decide) l hl r

theorem ytStarA2 (id : List Char) (hid : ∀ c ∈ id, isAlnumChar c = true)
    (rest : List Char) :
    starLitCandidates (· ≠ '>') classEqLit
      (' ' :: (classEqLit ++ (ytClassLit ++ '"' :: ' ' ::
        (thumbUrlLit ++ ("https://img.".data ++ (ytViLit ++ (id ++ '/' ::
          ("0.jpg".data ++ '"' :: '>' :: rest)))))))) = [1] := by
  rw [starLit_cons_no _ _ _ _ (by decide) (by rfl)]
  rw [show classEqLit ++ (ytClassLit ++ '"' :: ' ' ::
      (thumbUrlLit ++ ("https://img.".data ++ (ytViLit ++ (id ++ '/' ::
        ("0.jpg".data ++ '"' :: '>' :: rest)))))) =
    'c' :: ("lass=\"mediatag-thumb youtube-thumb\" data-thumb-url=\"https://img.youtube.com/vi/".data ++
      (id ++ '/' :: ("0.jpg".data ++ '"' :: '>' :: rest))) from rfl]
  rw [starLit_cons_hit _ _ _ _ (by decide) (by
    rw [show 'c' :: ("lass=\"mediatag-thumb youtube-thumb\" data-thumb-url=\"https://img.youtube.com/vi/".data ++
        (id ++ '/' :: ("0.jpg".data ++ '"' :: '>' :: rest))) =
      classEqLit ++ ("media".data ++ ("tag-thumb youtube-thumb\" data-thumb-url=\"https://img.youtube.com/vi/".data ++
        (id ++ '/' :: ("0.jpg".data ++ '"' :: '>' :: rest)))) from rfl]
    exact isPrefixOf_append_self _ _)]
  rw [show "lass=\"mediatag-thumb youtube-thumb\" data-thumb-url=\"https://img.youtube.com/vi/".data ++
      (id ++ '/' :: ("0.jpg".data ++ '"' :: '>' :: rest)) =
    "lass=\"mediatag-thumb youtube-thumb\" data-thumb-url=\"https://img.youtube.com/vi/".data ++
      (id ++ '/' :: ("0.jpg".data ++ '"' :: '>' :: rest)) from rfl]
  rw [starLit_append_free _ _ _ _ (by decide) (by
    intro t hsuf hne
    rw [← List.mem_tails] at hsuf
    fin_cases hsuf <;>
      first
        | exact absurd rfl hne
        | simp [List.isPrefixOf, classEqLit])]
  rw [starLit_append_free _ _ _ _ (fun c hc => alnum_allowed_gt c (hid c hc)) (by
    intro t hsuf hne
    cases t with
    | nil => exact absurd rfl hne
    | cons a as =>
      exact classEq_not_prefix_alnum_slash (a :: as)
        (fun y hy => hid y (hsuf.subset hy)) ("0.jpg".data ++ '"' :: '>' :: rest))]
  rw [show '/' :: ("0.jpg".data ++ '"' :: '>' :: rest) =
    "/0.jpg\"".data ++ ('>' :: rest) from rfl]
  rw [starLit_append_free _ _ _ _ (by decide) (by
    intro t hsuf hne
    rw [← List.mem_tails] at hsuf
    fin_cases hsuf <;>
      first
        | exact absurd rfl hne
        | simp [List.isPrefixOf, classEqLit])]
  rw [starLit_stop1 _ _ _ _ (by decide) (by rfl)]
  rfl

end VLP2SS

namespace VLP2SS

theorem ytStarC2 (id : List Char) (hid : ∀ c ∈ id, isAlnumChar c = true)
    (rest : List Char) :
    starLitCandidates (· ≠ '>') thumbUrlLit
      (' ' :: (thumbUrlLit ++ ("https://img.".data ++ (ytViLit ++ (id ++ '/' ::
        ("0.jpg".data ++ '"' :: '>' :: rest)))))) = [1] := by
  rw [starLit_cons_no _ _ _ _ (by decide) (by rfl)]
  rw [show thumbUrlLit ++ ("https://img.".data ++ (ytViLit ++ (id ++ '/' ::
      ("0.jpg".data ++ '"' :: '>' :: rest)))) =
    'd' :: ("ata-thumb-url=\"https://img.youtube.com/vi/".data ++
      (id ++ '/' :: ("0.jpg".data ++ '"' :: '>' :: rest))) from rfl]
  rw [starLit_cons_hit _ _ _ _ (by decide) (by
    rw [show 'd' :: ("ata-thumb-url=\"https://img.youtube.com/vi/".data ++
        (id ++ '/' :: ("0.jpg".data ++ '"' :: '>' :: rest))) =
      thumbUrlLit ++ ("https://img.youtube.com/vi/".data ++
        (id ++ '/' :: ("0.jpg".data ++ '"' :: '>' :: rest))) from rfl]
    exact isPrefixOf_append_self _ _)]
  rw [starLit_append_free _ _ _ _ (by decide) (by
    intro t hsuf hne
    rw [← List.mem_tails] at hsuf
    fin_cases hsuf <;>
      first
        | exact absurd rfl hne
        | simp [List.isPrefixOf, thumbUrlLit])]
  rw [starLit_append_free _ _ _ _ (fun c hc => alnum_allowed_gt c (hid c hc)) (by
    intro t hsuf hne
    cases t with
    | nil => exact absurd rfl hne
    | cons a as =>
      exact thumbUrl_not_prefix_alnum_slash (a :: as)
        (fun y hy => hid y (hsuf.subset hy)) ("0.jpg".data ++ '"' :: '>' :: rest))]
  rw [show '/' :: ("0.jpg".data ++ '"' :: '>' :: rest) =
    "/0.jpg\"".data ++ ('>' :: rest) from rfl]
  rw [starLit_append_free _ _ _ _ (by decide) (by
    intro t hsuf hne
    rw [← List.mem_tails] at hsuf
    fin_cases hsuf <;>
      first
        | exact absurd rfl hne
        | simp [List.isPrefixOf, thumbUrlLit])]
  rw [starLit_stop1 _ _ _ _ (by decide) (by rfl)]
  rfl

theorem ytStarD2 (id : List Char) (hid : ∀ c ∈ id, isAlnumChar c = true)
    (rest : List Char) :
    starLitCandidates (· ≠ '"') ytViLit
      ("https://img.".data ++ (ytViLit ++ (id ++ '/' ::
        ("0.jpg".data ++ '"' :: '>' :: rest)))) = [12] := by
  rw [starLit_append_free _ _ _ _ (by decide) (by
    intro t hsuf hne
    rw [← List.mem_tails] at hsuf
    fin_cases hsuf <;>
      first
        | exact absurd rfl hne
        | simp [List.isPrefixOf, ytViLit])]
  rw [show ytViLit ++ (id ++ '/' :: ("0.jpg".data ++ '"' :: '>' :: rest)) =
    'y' :: ("outube.com/vi/".data ++ (id ++ '/' ::
      ("0.jpg".data ++ '"' :: '>' :: rest))) from rfl]
  rw [starLit_cons_hit _ _ _ _ (by decide) (by
    rw [show 'y' :: ("outube.com/vi/".data ++ (id ++ '/' ::
        ("0.jpg".data ++ '"' :: '>' :: rest))) =
      ytViLit ++ (id ++ '/' :: ("0.jpg".data ++ '"' :: '>' :: rest)) from rfl]
    exact isPrefixOf_append_self _ _)]
  rw [starLit_append_free _ _ _ _ (by decide) (by
    intro t hsuf hne
    rw [← List.mem_tails] at hsuf
    fin_cases hsuf <;>
      first
        | exact absurd rfl hne
        | simp [List.isPrefixOf, ytViLit])]
  rw [starLit_append_free _ _ _ _ (fun c hc => alnum_allowed_quote c (hid c hc)) (by
    intro t hsuf hne
    cases t with
    | nil => exact absurd rfl hne
    | cons a as =>
      exact ytVi_not_prefix_alnum (a :: as)
        (fun y hy => hid y (hsuf.subset hy)) ("0.jpg".data ++ '"' :: '>' :: rest))]
  rw [show '/' :: ("0.jpg".data ++ '"' :: '>' :: rest) =
    "/0.jpg".data ++ ('"' :: '>' :: rest) from rfl]
  rw [starLit_append_free _ _ _ _ (by decide) (by
    intro t hsuf hne
    rw [← List.mem_tails] at hsuf
    fin_cases hsuf <;>
      first
        | exact absurd rfl hne
        | simp [List.isPrefixOf, ytViLit])]
  rw [starLit_stop1 _ _ _ _ (by decide) (by rfl)]
  rfl

end VLP2SS

namespace VLP2SS

theorem matchYt2At_canonical (id x : List Char) (hne : id ≠ [])
    (hid : ∀ c ∈ id, isAlnumChar c = true) (hx : ∀ c ∈ x, c ≠ '<' ∧ c ≠ '\n') :
    matchYt2At (ytCanonical2 id x) = some ((ytCanonical2 id x).length, id) := by
  have hA := ytStarA2 id hid (x ++ closeDivLit)
  have hB := ytStarB (' ' :: (thumbUrlLit ++ ("https://img.".data ++ (ytViLit ++
    (id ++ '/' :: ("0.jpg".data ++ '"' :: '>' :: (x ++ closeDivLit)))))))
  have hC := ytStarC2 id hid (x ++ closeDivLit)
  have hD := ytStarD2 id hid (x ++ closeDivLit)
  have hC1 : findSubIdx ['/'] (id ++ '/' :: ("0.jpg".data ++ '"' :: '>' ::
      (x ++ closeDivLit))) = some id.length := by
    rw [findSubIdx_skip '/' [] id _ (fun c hc => alnum_ne c (hid c hc) '/' (by decide))]
    rw [show findSubIdx ['/'] ('/' :: ("0.jpg".data ++ '"' :: '>' ::
      (x ++ closeDivLit))) = some 0 from rfl]
    simp
  have hJ : findSubIdxNoNL closeDivLit (x ++ closeDivLit) = some x.length := by
    have hself := findSubIdxNoNL_self closeDivLit [] (by decide)
    rw [List.append_nil] at hself
    rw [show closeDivLit = '<' :: "/div>".data from rfl] at hself ⊢
    rw [findSubIdxNoNL_skip '<' "/div>".data x _ (fun c hc => hx c hc), hself]
    simp [Nat.add_comm]
  have h7 : findSubIdx ['>'] ('>' :: (x ++ closeDivLit)) = some 0 := by
    rw [show ('>' :: (x ++ closeDivLit)) = ['>'] ++ (x ++ closeDivLit) from rfl]
    exact findSubIdx_self _ _ (by decide)
  simp only [ytCanonical2, matchYt2At, isPrefixOf_append_self, if_true, List.drop_left]
  rw [hA]
  simp only [List.reverse_cons, List.reverse_nil, List.nil_append, List.findSome?_cons]
  rw [show (' ' :: (classEqLit ++ (ytClassLit ++ '"' :: ' ' ::
      (thumbUrlLit ++ ("https://img.".data ++ (ytViLit ++ (id ++ '/' ::
        ("0.jpg".data ++ '"' :: '>' :: (x ++ closeDivLit))))))))).drop
      (1 + classEqLit.length) =
    ytClassLit ++ '"' :: ' ' :: (thumbUrlLit ++ ("https://img.".data ++
      (ytViLit ++ (id ++ '/' :: ("0.jpg".data ++ '"' :: '>' ::
        (x ++ closeDivLit)))))) from rfl]
  rw [hB]
  simp only [List.reverse_cons, List.reverse_nil, List.nil_append, List.findSome?_cons]
  rw [show (ytClassLit ++ '"' :: ' ' :: (thumbUrlLit ++ ("https://img.".data ++
      (ytViLit ++ (id ++ '/' :: ("0.jpg".data ++ '"' :: '>' ::
        (x ++ closeDivLit))))))).drop (0 + ytClassLit.length) =
    '"' :: ' ' :: (thumbUrlLit ++ ("https://img.".data ++ (ytViLit ++ (id ++ '/' ::
      ("0.jpg".data ++ '"' :: '>' :: (x ++ closeDivLit)))))) from rfl]
  rw [show findSubIdx ['"'] ('"' :: ' ' :: (thumbUrlLit ++ ("https://img.".data ++
      (ytViLit ++ (id ++ '/' :: ("0.jpg".data ++ '"' :: '>' ::
        (x ++ closeDivLit))))))) = some 0 from rfl]
  dsimp only
  rw [show ('"' :: ' ' :: (thumbUrlLit ++ ("https://img.".data ++ (ytViLit ++
      (id ++ '/' :: ("0.jpg".data ++ '"' :: '>' ::
        (x ++ closeDivLit))))))).drop (0 + 1) =
    ' ' :: (thumbUrlLit ++ ("https://img.".data ++ (ytViLit ++ (id ++ '/' ::
      ("0.jpg".data ++ '"' :: '>' :: (x ++ closeDivLit)))))) from rfl]
  rw [hC]
  simp only [List.reverse_cons, List.reverse_nil, List.nil_append, List.findSome?_cons]
  rw [show (' ' :: (thumbUrlLit ++ ("https://img.".data ++ (ytViLit ++ (id ++ '/' ::
      ("0.jpg".data ++ '"' :: '>' :: (x ++ closeDivLit))))))).drop
      (1 + thumbUrlLit.length) =
    "https://img.".data ++ (ytViLit ++ (id ++ '/' :: ("0.jpg".data ++ '"' :: '>' ::
      (x ++ closeDivLit)))) from rfl]
  rw [hD]
  simp only [List.reverse_cons, List.reverse_nil, List.nil_append, List.findSome?_cons]
  rw [show ("https://img.".data ++ (ytViLit ++ (id ++ '/' :: ("0.jpg".data ++
      '"' :: '>' :: (x ++ closeDivLit))))).drop (12 + ytViLit.length) =
    id ++ '/' :: ("0.jpg".data ++ '"' :: '>' :: (x ++ closeDivLit)) from rfl]
  rw [hC1]
  dsimp only
  rw [if_neg (fun h => hne (List.length_eq_zero.mp h))]
  rw [drop_length_add id ('/' :: ("0.jpg".data ++ '"' :: '>' :: (x ++ closeDivLit))) 1]
  rw [show ('/' :: ("0.jpg".data ++ '"' :: '>' :: (x ++ closeDivLit))).drop 1 =
    "0.jpg".data ++ '"' :: '>' :: (x ++ closeDivLit) from rfl]
  rw [show findSubIdx ['"'] ("0.jpg".data ++ '"' :: '>' :: (x ++ closeDivLit)) =
    some 5 from rfl]
  dsimp only
  rw [show ("0.jpg".data ++ '"' :: '>' :: (x ++ closeDivLit)).drop (5 + 1) =
    '>' :: (x ++ closeDivLit) from rfl]
  rw [h7]
  dsimp only
  rw [show ('>' :: (x ++ closeDivLit)).drop (0 + 1) = x ++ closeDivLit from rfl]
  rw [hJ]
  simp only [Option.map_some']
  rw [List.take_left]
  have hlen : divOpenLit.length + 1 + classEqLit.length + 0 + ytClassLit.length +
      0 + 1 + 1 + thumbUrlLit.length + 12 + ytViLit.length + id.length + 1 + 5 +
      1 + 0 + 1 + x.length + closeDivLit.length =
      (divOpenLit ++ ' ' :: (classEqLit ++ (ytClassLit ++ '"' :: ' ' ::
        (thumbUrlLit ++ ("https://img.".data ++ (ytViLit ++ (id ++ '/' ::
          ("0.jpg".data ++ '"' :: '>' :: (x ++ closeDivLit))))))))).length := by
    simp
    omega
  rw [hlen]

end VLP2SS

namespace VLP2SS

set_option maxRecDepth 100000 in
/-- C5 (amended): the recognized block pattern requires the literal adjacent
class text `mediatag-thumb youtube-thumb` (in that order) in the class
attribute, not merely both classes.  On such a block, the video identifier
is taken from `data-media-id` by the first pattern and parsed out of a
`data-thumb-url` matching `.../vi/<id>/...` by the fallback pattern, for any
nonempty alphanumeric identifier; the whole block is replaced by the embed
wrapper with the iframe for that identifier (`data-media-id` preferred when
both attributes are present), and a block with neither attribute is left
untouched. -/
theorem claimC5_youtube_embed_conversion :
    (∀ id x : List Char, id ≠ [] → (∀ c ∈ id, isAlnumChar c = true) →
      (∀ c ∈ x, c ≠ '<' ∧ c ≠ '\n') →
      matchYt1At (ytCanonical1 id x) = some ((ytCanonical1 id x).length, id) ∧
      matchYt2At (ytCanonical2 id x) = some ((ytCanonical2 id x).length, id)) ∧
    convertYouTubeEmbeds ⟨ytCanonical1 "abc123".data "Watch".data⟩ =
      ⟨youTubeEmbedHTML "abc123".data⟩ ∧
    convertYouTubeEmbeds ⟨ytCanonical2 "xyz789".data "Watch".data⟩ =
      ⟨youTubeEmbedHTML "xyz789".data⟩ ∧
    convertYouTubeEmbeds
        "<div class=\"mediatag-thumb youtube-thumb\" data-thumb-url=\"https://img.youtube.com/vi/xyz789/0.jpg\" data-media-id=\"abc123\">Watch</div>" =
      ⟨youTubeEmbedHTML "abc123".data⟩ ∧
    convertYouTubeEmbeds "<div class=\"mediatag-thumb youtube-thumb\">Watch</div>" =
      "<div class=\"mediatag-thumb youtube-thumb\">Watch</div>" := by
  refine ⟨fun id x h1 h2 h3 => ⟨matchYt1At_canonical id x h1 h2 h3,
    matchYt2At_canonical id x h1 h2 h3⟩, ?_, ?_, ?_, ?_⟩ <;> decide

set_option maxRecDepth 100000 in
/-- C5 counterexample: a div whose class attribute contains both
`mediatag-thumb` and `youtube-thumb` — but in the other order, so the two
names are not adjacent as the literal `mediatag-thumb youtube-thumb` — is
NOT converted even though it carries a `data-media-id`: the claim's
"contains both" condition is wrong. -/
theorem claimC5_counterexample :
    containsSub "mediatag-thumb".data
      "<div class=\"youtube-thumb mediatag-thumb\" data-media-id=\"abc123\">x</div>".data = true ∧
    containsSub "youtube-thumb".data
      "<div class=\"youtube-thumb mediatag-thumb\" data-media-id=\"abc123\">x</div>".data = true ∧
    convertYouTubeEmbeds
        "<div class=\"youtube-thumb mediatag-thumb\" data-media-id=\"abc123\">x</div>" =
      "<div class=\"youtube-thumb mediatag-thumb\" data-media-id=\"abc123\">x</div>" := by
  refine ⟨?_, ?_, ?_⟩ <;> decide

theorem claimC5_witness :
    matchYt1At (ytCanonical1 "abc123".data "Watch".data) =
      some ((ytCanonical1 "abc123".data "Watch".data).length, "abc123".data) ∧
    matchYt2At (ytCanonical2 "xyz789".data "Watch".data) =
      some ((ytCanonical2 "xyz789".data "Watch".data).length, "xyz789".data) :=
  ⟨(claimC5_youtube_embed_conversion.1 "abc123".data "Watch".data (by decide)
      (by decide) (by decide)).1,
   (claimC5_youtube_embed_conversion.1 "xyz789".data "Watch".data (by decide)
      (by decide) (by decide)).2⟩

end VLP2SS
